import Mathlib

/-!
# The HP82240B printer emulator of wp34s: the paper widget, and the key buffer

A shallow embedding of `QtPrinterEmulator/PaperWidget.cpp` (the protocol
decoder, the glyph renderer and the scrolling raster) and of the key buffer of
`QtGui/QtKeyboard.cpp`, followed by theorems about them.

Conventions of the embedding.

* A `QByteArray` is a list of bytes, each a number below 256.
* C++ `int` is modelled by `Int`; signed overflow is undefined behaviour in
  C++ and is not modelled.
* `QByteArray::at` returns a C++ `char`.  Whether `char` is signed is
  implementation-defined (it is signed with the usual compilers for x86 and
  x86-64, unsigned on ARM Linux); `Config.charIsSigned` records the choice
  and `charToInt` is the conversion performed by `int c=aText.at(charIndex)`.
* The constants of `PaperWidget.h` and the font tables of `font82240b.h` are
  not part of the sources at hand; they are the fields of `Config`.  The
  constant `KEYBOARD_BUFFER_SIZE` of `QtKeyboard.h` is the argument `size` of
  the key buffer operations.
* `pixmap` and `painter` are created together and deleted together
  (`buildPixmap`, `lineFeed`, `removeFirstLine`, `deletePixmap`), so one
  optional raster stands for both.  Dereferencing a null `pixmap` or
  `painter` is a failure: the operation returns `none`.
* `update()` and the signal `printed` only notify the window system and are
  not part of the state; `printedSignal` gives the value carried by the signal.
-/

namespace Printer

/-- One element of a `QByteArray`. -/
abbrev Byte := Fin 256

/-- The record `FONTDEF` of `font82240b.h`: the column bytes of a glyph. -/
structure FONTDEF where
  byCol : Nat → Nat

/-- The constants and tables the source takes from `PaperWidget.h` and
`font82240b.h`, and the signedness of `char` on the platform. -/
structure Config where
  PAPER_WIDTH : Int
  PAPER_HORIZONTAL_MARGIN : Int
  PAPER_VERTICAL_MARGIN : Int
  PAPER_INITIAL_LINES : Int
  LINE_HEIGHT : Int
  MAX_LINES : Int
  HP82240B_CHARACTER_WIDTH : Nat
  HP82240B_CHARACTER_HEIGHT : Nat
  sFontRoman8 : Int → FONTDEF
  sFontEcma94 : Int → FONTDEF
  charIsSigned : Bool

def FIRST_PRINTABLE_CHAR : Int := 32
def ESCAPE_CHAR : Int := 27
def END_OF_LINE : Int := 10
def LINE_FEED : Int := 4

def RESET_PRINTER : Int := 255
def SELF_TEST : Int := 254
def USE_EXPANDED_CHARACTERS : Int := 253
def USE_NORMAL_CHARACTERS : Int := 252
def START_UNDERLINING : Int := 251
def STOP_UNDERLINING : Int := 250
def USE_ECMA94 : Int := 249
def USE_ROMAN8 : Int := 248
def GRAPHICS_MAX : Int := 166

/-- The conversion `int c=aText.at(charIndex)`: the byte read as a `char` and
widened to `int`.  With a signed `char` the bytes 128..255 become -128..-1. -/
def charToInt (cfg : Config) (b : Byte) : Int :=
  if cfg.charIsSigned && decide (128 ≤ b.val) then (b.val : Int) - 256 else (b.val : Int)

/-- The conversion `(unsigned char) aChar` of an `int`. -/
def toUnsignedChar (aChar : Int) : Nat :=
  (aChar % 256).toNat

/-- A raster: `black px py` is the colour of device pixel `(px, py)`; only the
pixels with `0 ≤ px < width` and `0 ≤ py < height` belong to the raster. -/
structure QPixmap where
  width : Int
  height : Int
  black : Int → Int → Bool

namespace QPixmap

/-- A pixel position inside the raster. -/
def inside (p : QPixmap) (px py : Int) : Bool :=
  decide (0 ≤ px) && decide (px < p.width) && decide (0 ≤ py) && decide (py < p.height)

/-- The statements `new QPixmap(w, h)` followed by `fill(Qt::white)`.  Qt
constructs the null pixmap, of width 0 and height 0, unless both `w` and `h`
are positive. -/
def blank (w h : Int) : QPixmap :=
  if 0 < w ∧ 0 < h then { width := w, height := h, black := fun _ _ => false }
  else { width := 0, height := 0, black := fun _ _ => false }

/-- The call `painter->fillRect(x, y, w, h, Qt::black)` on the raster. -/
def fillRect (p : QPixmap) (x y w h : Int) : QPixmap :=
  { p with black := fun px py =>
      p.black px py ||
        (p.inside px py && decide (x ≤ px) && decide (px < x + w)
          && decide (y ≤ py) && decide (py < y + h)) }

/-- The call `drawPixmap(tx, ty, src, sx, sy, sw, sh)` of a painter on `p`:
the rectangle of `src` at `(sx, sy)` of size `sw`×`sh` is copied to `(tx, ty)`.
Qt replaces a width or height that is not positive by the rest of the source. -/
def drawPixmapRect (p : QPixmap) (tx ty : Int) (src : QPixmap) (sx sy sw sh : Int) : QPixmap :=
  let sw1 := if sw ≤ 0 then src.width - sx else sw
  let sh1 := if sh ≤ 0 then src.height - sy else sh
  { p with black := fun px py =>
      if p.inside px py && decide (tx ≤ px) && decide (px < tx + sw1)
          && decide (ty ≤ py) && decide (py < ty + sh1)
          && src.inside (px - tx + sx) (py - ty + sy)
      then src.black (px - tx + sx) (py - ty + sy)
      else p.black px py }

/-- The call `drawPixmap(0, 0, src)`: the whole of `src` copied to the origin. -/
def drawPixmap (p : QPixmap) (src : QPixmap) : QPixmap :=
  drawPixmapRect p 0 0 src 0 0 src.width src.height

end QPixmap

/-- The member variables of `PaperWidget`, and the size the window system
gives the widget (`size()`). -/
structure PaperWidget where
  x : Int
  y : Int
  xOffset : Int
  lineCount : Int
  zoom : Int
  pixmap : Option QPixmap
  lastIsEscape : Bool
  ecma94 : Bool
  underlined : Bool
  expanded : Bool
  expectedGraphicsChars : Int
  printedText : List Byte
  sizeWidth : Int
  sizeHeight : Int
  minimumHeight : Int

namespace PaperWidget

/-- The constructor `PaperWidget::PaperWidget()`; `w` and `h` are the size the
window system gives the new widget. -/
def new (cfg : Config) (w h : Int) : PaperWidget :=
  { x := 0, y := 0, xOffset := 0, lineCount := cfg.PAPER_INITIAL_LINES, zoom := 1,
    pixmap := none, lastIsEscape := false, ecma94 := false, underlined := false,
    expanded := false, expectedGraphicsChars := 0, printedText := [],
    sizeWidth := w, sizeHeight := h,
    minimumHeight := cfg.PAPER_INITIAL_LINES * cfg.LINE_HEIGHT + cfg.PAPER_VERTICAL_MARGIN }

/-- The method `PaperWidget::toX`. -/
def toX (cfg : Config) (s : PaperWidget) (anX : Int) : Int :=
  cfg.PAPER_HORIZONTAL_MARGIN.tdiv 2 + s.xOffset + anX * s.zoom

/-- The method `PaperWidget::toY`. -/
def toY (cfg : Config) (s : PaperWidget) (anY : Int) : Int :=
  cfg.PAPER_VERTICAL_MARGIN.tdiv 2 + anY * s.zoom

/-- The method `PaperWidget::deletePixmap`. -/
def deletePixmap (s : PaperWidget) : PaperWidget :=
  { s with pixmap := none }

/-- The method `PaperWidget::drawPoint`; fails when there is no painter. -/
def drawPoint (cfg : Config) (s : PaperWidget) (anX anY : Int) : Option PaperWidget :=
  match s.pixmap with
  | none => none
  | some p =>
    some { s with pixmap := some (p.fillRect (toX cfg s anX) (toY cfg s anY) s.zoom s.zoom) }

/-- The method `PaperWidget::drawHorizontalLine`; fails when there is no painter. -/
def drawHorizontalLine (cfg : Config) (s : PaperWidget) (anX anY aLength : Int) :
    Option PaperWidget :=
  match s.pixmap with
  | none => none
  | some p =>
    some { s with
      pixmap := some (p.fillRect (toX cfg s anX) (toY cfg s anY) (aLength * s.zoom) s.zoom) }

/-- The value of the `unsigned char mask` in iteration `charY` of the row
loops: it starts at `0x1` and is shifted left once per iteration. -/
def maskAt (charY : Nat) : Nat :=
  2 ^ charY % 256

/-- The test `(charColumn & mask)!=0` in iteration `charY`. -/
def columnBit (charColumn charY : Nat) : Bool :=
  decide (charColumn &&& maskAt charY ≠ 0)

/-- One iteration of the row loop of `processGraphics`. -/
def graphicsRow (cfg : Config) (charColumn : Nat) (s : PaperWidget) (charY : Nat) :
    Option PaperWidget :=
  if columnBit charColumn charY then drawPoint cfg s s.x (s.y + charY) else some s

/-- The method `PaperWidget::processGraphics`. -/
def processGraphics (cfg : Config) (s : PaperWidget) (aChar : Int) : Option PaperWidget :=
  let charColumn := toUnsignedChar aChar
  ((List.range cfg.HP82240B_CHARACTER_HEIGHT).foldlM (graphicsRow cfg charColumn) s).map
    fun t => { t with x := t.x + 1 }

/-- One iteration of the row loop of `processNormalChar`. -/
def glyphRow (cfg : Config) (charColumn charX : Nat) (expandedIncrement : Int)
    (s : PaperWidget) (charY : Nat) : Option PaperWidget :=
  if columnBit charColumn charY then
    drawHorizontalLine cfg s (s.x + charX) (s.y + charY) expandedIncrement
  else some s

/-- One iteration of the column loop of `processNormalChar`. -/
def glyphColumn (cfg : Config) (fontDef : FONTDEF) (expandedIncrement : Int)
    (s : PaperWidget) (charX : Nat) : Option PaperWidget :=
  let charColumn := fontDef.byCol charX % 256
  (List.range cfg.HP82240B_CHARACTER_HEIGHT).foldlM
    (glyphRow cfg charColumn charX expandedIncrement) s

/-- The method `PaperWidget::processNormalChar`. -/
def processNormalChar (cfg : Config) (s : PaperWidget) (aChar : Int) : Option PaperWidget :=
  if aChar ≥ FIRST_PRINTABLE_CHAR then
    let expandedIncrement : Int := if s.expanded then 2 else 1
    let s1 := { s with x := s.x + expandedIncrement }
    let fontDef := (if s1.ecma94 then cfg.sFontEcma94 else cfg.sFontRoman8)
      (aChar - FIRST_PRINTABLE_CHAR)
    match (List.range cfg.HP82240B_CHARACTER_WIDTH).foldlM
        (glyphColumn cfg fontDef expandedIncrement) s1 with
    | none => none
    | some s2 =>
      match (if s2.underlined then
          drawHorizontalLine cfg s2 (s2.x - expandedIncrement)
            (s2.y + cfg.HP82240B_CHARACTER_HEIGHT)
            ((cfg.HP82240B_CHARACTER_WIDTH + 2) * expandedIncrement)
        else some s2) with
      | none => none
      | some s3 =>
        some { s3 with x := s3.x + (cfg.HP82240B_CHARACTER_WIDTH + 1) * expandedIncrement }
  else some s

/-- The method `PaperWidget::resetPrinter`. -/
def resetPrinter (s : PaperWidget) : PaperWidget :=
  { s with lastIsEscape := false, ecma94 := false, underlined := false, expanded := false,
           expectedGraphicsChars := 0 }

/-- The method `PaperWidget::selfTest`, which is empty. -/
def selfTest (s : PaperWidget) : PaperWidget := s

/-- The method `PaperWidget::processEscape`. -/
def processEscape (s : PaperWidget) (anEscapedChar : Int) : PaperWidget :=
  if anEscapedChar = RESET_PRINTER then resetPrinter s
  else if anEscapedChar = SELF_TEST then selfTest s
  else if anEscapedChar = USE_EXPANDED_CHARACTERS then { s with expanded := true }
  else if anEscapedChar = USE_NORMAL_CHARACTERS then { s with expanded := false }
  else if anEscapedChar = START_UNDERLINING then { s with underlined := true }
  else if anEscapedChar = STOP_UNDERLINING then { s with underlined := false }
  else if anEscapedChar = USE_ECMA94 then { s with ecma94 := true }
  else if anEscapedChar = USE_ROMAN8 then { s with ecma94 := false }
  else if anEscapedChar ≤ GRAPHICS_MAX then { s with expectedGraphicsChars := anEscapedChar }
  else s

/-- The scan of `removeFirstLine`: the index of the first byte of the text
that reads as `LINE_FEED` or `END_OF_LINE`, if there is one. -/
def firstTerminator (cfg : Config) : List Byte → Option Nat
  | [] => none
  | b :: rest =>
    if charToInt cfg b = LINE_FEED ∨ charToInt cfg b = END_OF_LINE then some 0
    else (firstTerminator cfg rest).map (· + 1)

/-- The loop of `removeFirstLine` on the history: `printedText.remove(0, charIndex+1)`
at the first terminator, nothing when there is none. -/
def removeFirstLineText (cfg : Config) (text : List Byte) : List Byte :=
  match firstTerminator cfg text with
  | some charIndex => text.drop (charIndex + 1)
  | none => text

/-- The method `PaperWidget::removeFirstLine`; fails when there is no pixmap. -/
def removeFirstLine (cfg : Config) (s : PaperWidget) : Option PaperWidget :=
  let s1 := { s with printedText := removeFirstLineText cfg s.printedText }
  match s1.pixmap with
  | none => none
  | some p =>
    let zoomedLineHeight := toY cfg s1 cfg.LINE_HEIGHT
    let newPixmap := (QPixmap.blank p.width p.height).drawPixmapRect 0 (toY cfg s1 0) p
      0 zoomedLineHeight p.width (p.height - zoomedLineHeight)
    some { s1 with pixmap := some newPixmap, lineCount := s1.lineCount - 1,
                   y := s1.y - cfg.LINE_HEIGHT }

/-- The method `PaperWidget::lineFeed`; fails when there is no pixmap. -/
def lineFeed (cfg : Config) (s : PaperWidget) : Option PaperWidget :=
  match (if s.lineCount ≥ cfg.MAX_LINES then removeFirstLine cfg s else some s) with
  | none => none
  | some s1 =>
    let s2 := { s1 with y := s1.y + cfg.LINE_HEIGHT }
    let newHeight := toY cfg s2 (s2.y + cfg.LINE_HEIGHT)
    match s2.pixmap with
    | none => none
    | some p =>
      let s3 :=
        if newHeight ≥ p.height then
          { s2 with pixmap := some ((QPixmap.blank p.width newHeight).drawPixmap p),
                    minimumHeight := newHeight }
        else s2
      some { s3 with x := 0, lineCount := s3.lineCount + 1 }

/-- The method `PaperWidget::endOfLine`. -/
def endOfLine (cfg : Config) (s : PaperWidget) : Option PaperWidget :=
  lineFeed cfg s

/-- The branch taken by the body of the loop of `print` for one character:
which member function is called, or that the escape character was found. -/
inductive Call where
  | processGraphics (c : Int)
  | processEscape (c : Int)
  | endOfLine
  | lineFeed
  | escapeFound
  | processNormalChar (c : Int)
  deriving DecidableEq, Repr

/-- The tests of the loop body of `print`, in their order. -/
def dispatch (s : PaperWidget) (c : Int) : Call :=
  if s.expectedGraphicsChars > 0 then Call.processGraphics c
  else if s.lastIsEscape then Call.processEscape c
  else if c = END_OF_LINE then Call.endOfLine
  else if c = LINE_FEED then Call.lineFeed
  else if c = ESCAPE_CHAR then Call.escapeFound
  else Call.processNormalChar c

/-- The body of the loop of `print` for the byte `b`. -/
def printChar (cfg : Config) (s : PaperWidget) (b : Byte) : Option PaperWidget :=
  let c := charToInt cfg b
  match dispatch s c with
  | Call.processGraphics c =>
    (processGraphics cfg { s with expectedGraphicsChars := s.expectedGraphicsChars - 1 } c).map
      fun t => { t with lastIsEscape := false }
  | Call.processEscape c => some { processEscape s c with lastIsEscape := false }
  | Call.endOfLine => (endOfLine cfg s).map fun t => { t with lastIsEscape := false }
  | Call.lineFeed => (lineFeed cfg s).map fun t => { t with lastIsEscape := false }
  | Call.escapeFound => some { s with lastIsEscape := true }
  | Call.processNormalChar c =>
    (processNormalChar cfg s c).map fun t => { t with lastIsEscape := false }

/-- The method `PaperWidget::print`: the loop over the characters of its
argument, which is a copy of the caller's array. -/
def print (cfg : Config) : PaperWidget → List Byte → Option PaperWidget
  | s, [] => some s
  | s, b :: rest =>
    match printChar cfg s b with
    | none => none
    | some t => print cfg t rest

/-- The value `toY(y+LINE_HEIGHT)` carried by the signal `printed` at the end of `print`. -/
def printedSignal (cfg : Config) (s : PaperWidget) : Int :=
  toY cfg s (s.y + cfg.LINE_HEIGHT)

/-- The branches taken by `print`, one per character processed. -/
def printCalls (cfg : Config) : PaperWidget → List Byte → List Call
  | _, [] => []
  | s, b :: rest =>
    dispatch s (charToInt cfg b) ::
      (match printChar cfg s b with
       | none => []
       | some t => printCalls cfg t rest)

/-- The method `PaperWidget::append`. -/
def append (cfg : Config) (s : PaperWidget) (aText : List Byte) : Option PaperWidget :=
  match print cfg s aText with
  | none => none
  | some t => some { t with printedText := t.printedText ++ aText }

/-- The method `PaperWidget::clear`. -/
def clear (s : PaperWidget) : PaperWidget :=
  deletePixmap { s with printedText := [] }

/-- The method `PaperWidget::buildPixmap`. -/
def buildPixmap (cfg : Config) (s : PaperWidget) : Option PaperWidget :=
  let zoom := max 1 (s.sizeWidth.tdiv (cfg.PAPER_WIDTH + cfg.PAPER_HORIZONTAL_MARGIN))
  let xOffset := (s.sizeWidth - cfg.PAPER_HORIZONTAL_MARGIN).tmod (cfg.PAPER_WIDTH * zoom)
  let newHeight := s.lineCount * cfg.LINE_HEIGHT * zoom
  let s1 := deletePixmap { s with zoom := zoom, xOffset := xOffset, minimumHeight := newHeight }
  let s2 := { s1 with pixmap := some (QPixmap.blank s.sizeWidth (max s.sizeHeight newHeight)) }
  print cfg { s2 with x := 0, y := 0, lineCount := 0 } s2.printedText

/-- The method `PaperWidget::resizeEvent`; `w` and `h` are the new size of the widget. -/
def resizeEvent (s : PaperWidget) (w h : Int) : PaperWidget :=
  deletePixmap { s with sizeWidth := w, sizeHeight := h }

/-- The method `PaperWidget::paintEvent`: the pixmap is built when it is missing. -/
def paintEvent (cfg : Config) (s : PaperWidget) : Option PaperWidget :=
  match s.pixmap with
  | none => buildPixmap cfg s
  | some _ => some s

/-- A session as the first paint leaves it: the widget is constructed with
size `w`×`h` and painted once, which builds the raster from the empty history. -/
def fresh (cfg : Config) (w h : Int) : Option PaperWidget :=
  paintEvent cfg (new cfg w h)

/-- The decoder is in its normal state: no escape pending and no graphics
bytes expected, which `print` tests as `expectedGraphicsChars>0`. -/
def Normal (s : PaperWidget) : Prop :=
  s.lastIsEscape = false ∧ s.expectedGraphicsChars ≤ 0

instance (s : PaperWidget) : Decidable (Normal s) := by
  unfold Normal; exact inferInstance

/-- The logical cell `(cx, cy)` is black in the raster of `s`: the device
pixel at `(toX cx, toY cy)`, the top left corner of the cell, is black. -/
def cellBlack (cfg : Config) (s : PaperWidget) (cx cy : Int) : Bool :=
  match s.pixmap with
  | none => false
  | some p => p.black (toX cfg s cx) (toY cfg s cy)

end PaperWidget

/-- Column bytes of three glyphs in the usual 5×7 shapes (bit 0 is the top
row), at their indices in a font table: `A` (33), `H` (40) and `i` (73); every
other glyph is blank. -/
def sampleFont (index : Int) : FONTDEF :=
  if index = 33 then ⟨fun charX => [0x7E, 0x11, 0x11, 0x11, 0x7E].getD charX 0⟩
  else if index = 40 then ⟨fun charX => [0x7F, 0x08, 0x08, 0x08, 0x7F].getD charX 0⟩
  else if index = 73 then ⟨fun charX => [0x00, 0x44, 0x7D, 0x40, 0x00].getD charX 0⟩
  else ⟨fun _ => 0⟩

/-- An instance of the constants: a paper of 166 columns, lines of 12 rows,
glyphs of 5×8 in a cell, at most `maxLines` lines kept. -/
def sampleConfig (maxLines : Int) (charIsSigned : Bool) : Config :=
  { PAPER_WIDTH := 166, PAPER_HORIZONTAL_MARGIN := 20, PAPER_VERTICAL_MARGIN := 20,
    PAPER_INITIAL_LINES := 20, LINE_HEIGHT := 12, MAX_LINES := maxLines,
    HP82240B_CHARACTER_WIDTH := 5, HP82240B_CHARACTER_HEIGHT := 8,
    sFontRoman8 := sampleFont, sFontEcma94 := sampleFont, charIsSigned := charIsSigned }

namespace PaperWidget

/-- A session with an empty raster of 186×260 pixels, the cursor at the origin
and no line printed, for the constants of `sampleConfig`. -/
def sampleSession : PaperWidget :=
  { x := 0, y := 0, xOffset := 0, lineCount := 0, zoom := 1,
    pixmap := some (QPixmap.blank 186 260), lastIsEscape := false, ecma94 := false,
    underlined := false, expanded := false, expectedGraphicsChars := 0, printedText := [],
    sizeWidth := 186, sizeHeight := 260, minimumHeight := 240 }

/-- The columns `c` below `cols` whose cell on row `row` is black. -/
def blackColumns (cfg : Config) (s : PaperWidget) (cols : Nat) (row : Int) : List Nat :=
  (List.range cols).filter fun c => cellBlack cfg s c row

/-- A fresh session of size `w`×`h` after one call `append(aText)`. -/
def appendFresh (cfg : Config) (w h : Int) (aText : List Byte) : Option PaperWidget :=
  (fresh cfg w h).bind fun s => append cfg s aText

/-- A fresh session after `append(aText)` and a rebuild of the raster at the
same size (`buildPixmap`). -/
def appendFreshRebuilt (cfg : Config) (w h : Int) (aText : List Byte) : Option PaperWidget :=
  (appendFresh cfg w h aText).bind (buildPixmap cfg)

/-- The font index of the glyph a branch of `print` draws: `processNormalChar`
draws the glyph at index `aChar-FIRST_PRINTABLE_CHAR` when `aChar` is printable,
and no other branch draws a glyph. -/
def Call.glyphIndex : Call → Option Int
  | Call.processNormalChar c => if c ≥ FIRST_PRINTABLE_CHAR then some (c - FIRST_PRINTABLE_CHAR) else none
  | _ => none

/-- The font indices of the glyphs drawn by `print`, in order. -/
def glyphsDrawn (cfg : Config) (s : PaperWidget) (aText : List Byte) : List Int :=
  (printCalls cfg s aText).filterMap Call.glyphIndex

end PaperWidget

/-- The device pixel `(px, py)` lies in the rectangle at `(x, y)` of size `w`×`h`. -/
def inRect (x y w h px py : Int) : Bool :=
  decide (x ≤ px) && decide (px < x + w) && decide (y ≤ py) && decide (py < y + h)

/-- The raster `p` with the pixels of `ink` that lie inside it painted black. -/
def QPixmap.addInk (p : QPixmap) (ink : Int → Int → Bool) : QPixmap :=
  { p with black := fun px py => p.black px py || (p.inside px py && ink px py) }

namespace PaperWidget

/-- The device pixels covered by the call `drawHorizontalLine(anX, anY, aLength)`. -/
def lineInk (cfg : Config) (s : PaperWidget) (anX anY aLength : Int) (px py : Int) : Bool :=
  inRect (toX cfg s anX) (toY cfg s anY) (aLength * s.zoom) s.zoom px py

/-- The device pixels covered by the lines that `processNormalChar` draws for
the glyph of `aChar` in the state `s` (the state on entry): one line of length
`expandedIncrement` per set bit, at column `x + expandedIncrement + charX` and
row `y + charY`. -/
def glyphInk (cfg : Config) (s : PaperWidget) (aChar : Int) (px py : Int) : Bool :=
  let expandedIncrement : Int := if s.expanded then 2 else 1
  let fontDef := (if s.ecma94 then cfg.sFontEcma94 else cfg.sFontRoman8)
    (aChar - FIRST_PRINTABLE_CHAR)
  (List.range cfg.HP82240B_CHARACTER_WIDTH).any fun charX =>
    (List.range cfg.HP82240B_CHARACTER_HEIGHT).any fun charY =>
      columnBit (fontDef.byCol charX % 256) charY &&
        lineInk cfg s (s.x + expandedIncrement + charX) (s.y + charY) expandedIncrement px py

/-- The device pixels covered by the underline that `processNormalChar` draws
in the state `s` (the state on entry) when underlining is on. -/
def underlineInk (cfg : Config) (s : PaperWidget) (px py : Int) : Bool :=
  let expandedIncrement : Int := if s.expanded then 2 else 1
  s.underlined &&
    lineInk cfg s s.x (s.y + cfg.HP82240B_CHARACTER_HEIGHT)
      ((cfg.HP82240B_CHARACTER_WIDTH + 2) * expandedIncrement) px py

/-- The logical cells covered by the glyph lines of `processNormalChar` in the
state `s` (the state on entry): bit `charY` of glyph column `charX` covers the
`expandedIncrement` cells from column `x + expandedIncrement + charX` on, on
row `y + charY`. -/
def glyphCell (cfg : Config) (s : PaperWidget) (aChar : Int) (cx cy : Int) : Bool :=
  let expandedIncrement : Int := if s.expanded then 2 else 1
  let fontDef := (if s.ecma94 then cfg.sFontEcma94 else cfg.sFontRoman8)
    (aChar - FIRST_PRINTABLE_CHAR)
  (List.range cfg.HP82240B_CHARACTER_WIDTH).any fun charX =>
    (List.range cfg.HP82240B_CHARACTER_HEIGHT).any fun charY =>
      columnBit (fontDef.byCol charX % 256) charY &&
        (decide (s.x + expandedIncrement + charX ≤ cx) &&
          decide (cx < s.x + expandedIncrement + charX + expandedIncrement) &&
          decide (cy = s.y + charY))

/-- The logical cells covered by the underline of `processNormalChar` in the
state `s` (the state on entry). -/
def underlineCell (cfg : Config) (s : PaperWidget) (cx cy : Int) : Bool :=
  let expandedIncrement : Int := if s.expanded then 2 else 1
  s.underlined &&
    (decide (s.x ≤ cx) &&
      decide (cx < s.x + (cfg.HP82240B_CHARACTER_WIDTH + 2) * expandedIncrement) &&
      decide (cy = s.y + cfg.HP82240B_CHARACTER_HEIGHT))

end PaperWidget

namespace PaperWidget

/-- What a step of `print` keeps between a state `s` and a later state `t`:
the zoom, the offset and the widget size; the difference between the cursor
row and `lineCount` lines; the bounds 0 and `MAX_LINES` of `lineCount`; and
the raster, which stays present and, when it is not the null pixmap, keeps its
width and does not lose height. -/
def Keeps (cfg : Config) (s t : PaperWidget) : Prop :=
  t.zoom = s.zoom ∧ t.xOffset = s.xOffset ∧
  t.sizeWidth = s.sizeWidth ∧ t.sizeHeight = s.sizeHeight ∧
  t.y - t.lineCount * cfg.LINE_HEIGHT = s.y - s.lineCount * cfg.LINE_HEIGHT ∧
  (0 ≤ s.lineCount ∧ s.lineCount ≤ cfg.MAX_LINES →
    0 ≤ t.lineCount ∧ t.lineCount ≤ cfg.MAX_LINES) ∧
  (∀ p, s.pixmap = some p → ∃ q, t.pixmap = some q ∧
    (0 < p.width ∧ 0 < p.height → q.width = p.width ∧ p.height ≤ q.height))

end PaperWidget

/-- The members of `QtKeyboard` that make up the key buffer.  The array
`keyboardBuffer` is a function from the index to the stored key; the indices
are never negative (they start at 0 and are only set to a remainder), so they
are natural numbers.  The mutex and the wait condition order the calls of
different threads and are not part of the state; the calls are modelled one
after the other. -/
structure QtKeyboard where
  keyboardBuffer : Nat → Int
  keyboardBufferBegin : Nat
  keyboardBufferEnd : Nat
  lastKey : Int

namespace QtKeyboard

/-- The key buffer part of the constructor `QtKeyboard::QtKeyboard`; `buffer`
is the content of the array, which the constructor does not initialise. -/
def new (buffer : Nat → Int) : QtKeyboard :=
  { keyboardBuffer := buffer, keyboardBufferBegin := 0, keyboardBufferEnd := 0, lastKey := -1 }

/-- The method `QtKeyboard::isKeyPressedNoLock`. -/
def isKeyPressedNoLock (k : QtKeyboard) : Bool :=
  k.keyboardBufferBegin != k.keyboardBufferEnd

/-- The method `QtKeyboard::isKeyPressed`. -/
def isKeyPressed (k : QtKeyboard) : Bool :=
  isKeyPressedNoLock k

/-- The method `QtKeyboard::getKeyNoLock`: the key returned and the new state;
`size` is the constant `KEYBOARD_BUFFER_SIZE` of `QtKeyboard.h`. -/
def getKeyNoLock (size : Nat) (k : QtKeyboard) : Int × QtKeyboard :=
  if k.keyboardBufferBegin = k.keyboardBufferEnd then (-1, k)
  else
    (k.keyboardBuffer k.keyboardBufferBegin,
      { k with keyboardBufferBegin := (k.keyboardBufferBegin + 1) % size })

/-- The method `QtKeyboard::getKey`. -/
def getKey (size : Nat) (k : QtKeyboard) : Int × QtKeyboard :=
  getKeyNoLock size k

/-- The method `QtKeyboard::putKey`; `aKey` is the value of its `char` argument. -/
def putKey (size : Nat) (k : QtKeyboard) (aKey : Int) : QtKeyboard :=
  { k with
    keyboardBuffer := Function.update k.keyboardBuffer k.keyboardBufferEnd aKey,
    keyboardBufferEnd := (k.keyboardBufferEnd + 1) % size }

/-- The method `QtKeyboard::putKeyIfBufferEmpty`. -/
def putKeyIfBufferEmpty (size : Nat) (k : QtKeyboard) (aKey : Int) : QtKeyboard :=
  if !isKeyPressedNoLock k then
    { k with
      keyboardBuffer := Function.update k.keyboardBuffer k.keyboardBufferEnd aKey,
      keyboardBufferEnd := (k.keyboardBufferEnd + 1) % size }
  else k

/-- The keys returned by `n` calls of `getKey` in a row, and the state after them. -/
def getKeys (size : Nat) : Nat → QtKeyboard → List Int × QtKeyboard
  | 0, k => ([], k)
  | n + 1, k =>
    let r := getKey size k
    let rest := getKeys size n r.2
    (r.1 :: rest.1, rest.2)

/-- The number of keys that at most `fuel` calls of `getKey` in a row return
before the first -1. -/
def keysBeforeEmpty (size : Nat) : Nat → QtKeyboard → Nat
  | 0, _ => 0
  | fuel + 1, k =>
    let r := getKey size k
    if r.1 = -1 then 0 else keysBeforeEmpty size fuel r.2 + 1

/-- The number of keys in the buffer: the distance from the begin index to the
end index, going round the array. -/
def pending (size : Nat) (k : QtKeyboard) : Nat :=
  (k.keyboardBufferEnd + size - k.keyboardBufferBegin) % size

/-- The keys in the buffer, oldest first. -/
def queue (size : Nat) (k : QtKeyboard) : List Int :=
  (List.range (pending size k)).map fun i =>
    k.keyboardBuffer ((k.keyboardBufferBegin + i) % size)

/-- A key code as the claims take it: 0..127. -/
def KeyCode (aKey : Int) : Prop := 0 ≤ aKey ∧ aKey ≤ 127

/-- The buffer states reached from the constructor by calls of `putKey`,
`putKeyIfBufferEmpty` and `getKey` with key codes 0..127. -/
inductive Reachable (size : Nat) : QtKeyboard → Prop where
  | new (buffer : Nat → Int) : Reachable size (QtKeyboard.new buffer)
  | putKey (k : QtKeyboard) (aKey : Int) :
      Reachable size k → KeyCode aKey → Reachable size (QtKeyboard.putKey size k aKey)
  | putKeyIfBufferEmpty (k : QtKeyboard) (aKey : Int) :
      Reachable size k → KeyCode aKey →
      Reachable size (QtKeyboard.putKeyIfBufferEmpty size k aKey)
  | getKey (k : QtKeyboard) : Reachable size k → Reachable size (QtKeyboard.getKey size k).2

end QtKeyboard

namespace QtKeyboard

/-- The state of a buffer that is used with key codes 0..127: both indices
are inside the array and every key in the buffer is a key code. -/
def Inv (size : Nat) (k : QtKeyboard) : Prop :=
  k.keyboardBufferBegin < size ∧ k.keyboardBufferEnd < size ∧ ∀ x ∈ queue size k, KeyCode x

end QtKeyboard

namespace PaperWidget

/-- The session states the program can be in: those reached from the
constructor by `append`, `clear`, `resizeEvent` and `paintEvent`, and the states
in which `print` is after any part of its argument. -/
inductive Reachable (cfg : Config) : PaperWidget → Prop where
  | new (w h : Int) : Reachable cfg (PaperWidget.new cfg w h)
  | append (s t : PaperWidget) (aText : List Byte) :
      Reachable cfg s → PaperWidget.append cfg s aText = some t → Reachable cfg t
  | clear (s : PaperWidget) : Reachable cfg s → Reachable cfg (PaperWidget.clear s)
  | resizeEvent (s : PaperWidget) (w h : Int) :
      Reachable cfg s → Reachable cfg (PaperWidget.resizeEvent s w h)
  | paintEvent (s t : PaperWidget) :
      Reachable cfg s → PaperWidget.paintEvent cfg s = some t → Reachable cfg t
  | print (s t : PaperWidget) (aText : List Byte) :
      Reachable cfg s → PaperWidget.print cfg s aText = some t → Reachable cfg t

end PaperWidget

/-! ## Theorems -/

set_option maxRecDepth 1000000

theorem QPixmap.fillRect_eq_addInk (p : QPixmap) (x y w h : Int) :
    p.fillRect x y w h = p.addInk (inRect x y w h) := by
  simp only [QPixmap.fillRect, QPixmap.addInk, inRect, Bool.and_assoc]

theorem QPixmap.addInk_addInk (p : QPixmap) (i j : Int → Int → Bool) :
    (p.addInk i).addInk j = p.addInk (fun px py => i px py || j px py) := by
  simp only [QPixmap.addInk, QPixmap.inside]
  congr 1
  funext px py
  cases p.black px py <;> cases i px py <;> cases j px py <;> simp

theorem QPixmap.addInk_none (p : QPixmap) : p.addInk (fun _ _ => false) = p := by
  cases p
  simp [QPixmap.addInk]

namespace PaperWidget

theorem drawHorizontalLine_of_pixmap (cfg : Config) (s : PaperWidget) (p : QPixmap)
    (anX anY aLength : Int) (hp : s.pixmap = some p) :
    drawHorizontalLine cfg s anX anY aLength =
      some { s with
        pixmap := some (p.fillRect (toX cfg s anX) (toY cfg s anY) (aLength * s.zoom) s.zoom) } := by
  simp [drawHorizontalLine, hp]

theorem drawPoint_of_pixmap (cfg : Config) (s : PaperWidget) (p : QPixmap)
    (anX anY : Int) (hp : s.pixmap = some p) :
    drawPoint cfg s anX anY =
      some { s with pixmap := some (p.fillRect (toX cfg s anX) (toY cfg s anY) s.zoom s.zoom) } := by
  simp [drawPoint, hp]

/-- A loop whose body only repaints the raster only repaints the raster. -/
theorem foldlM_repaint {α : Type} (f : PaperWidget → α → Option PaperWidget)
    (hf : ∀ (s : PaperWidget) (a : α) (p : QPixmap), s.pixmap = some p →
      ∃ q, f s a = some { s with pixmap := some q })
    (l : List α) (s : PaperWidget) (p : QPixmap) (hp : s.pixmap = some p) :
    ∃ q, l.foldlM f s = some { s with pixmap := some q } := by
  induction l generalizing s p with
  | nil => exact ⟨p, by cases s; simp_all⟩
  | cons a l ih =>
    obtain ⟨q, hq⟩ := hf s a p hp
    obtain ⟨r, hr⟩ := ih { s with pixmap := some q } q rfl
    exact ⟨r, by simp [List.foldlM_cons, hq, hr]⟩

theorem glyphRow_repaint (cfg : Config) (charColumn charX : Nat) (inc : Int)
    (s : PaperWidget) (charY : Nat) (p : QPixmap) (hp : s.pixmap = some p) :
    ∃ q, glyphRow cfg charColumn charX inc s charY = some { s with pixmap := some q } := by
  unfold glyphRow
  split
  · exact ⟨p.fillRect _ _ _ _, drawHorizontalLine_of_pixmap cfg s p _ _ _ hp⟩
  · exact ⟨p, by cases s; simp_all⟩

theorem glyphColumn_repaint (cfg : Config) (fontDef : FONTDEF) (inc : Int)
    (s : PaperWidget) (charX : Nat) (p : QPixmap) (hp : s.pixmap = some p) :
    ∃ q, glyphColumn cfg fontDef inc s charX = some { s with pixmap := some q } := by
  unfold glyphColumn
  exact foldlM_repaint _ (fun s a p hp => glyphRow_repaint cfg _ _ _ s a p hp) _ s p hp

theorem graphicsRow_repaint (cfg : Config) (charColumn : Nat)
    (s : PaperWidget) (charY : Nat) (p : QPixmap) (hp : s.pixmap = some p) :
    ∃ q, graphicsRow cfg charColumn s charY = some { s with pixmap := some q } := by
  unfold graphicsRow
  split
  · exact ⟨p.fillRect _ _ _ _, drawPoint_of_pixmap cfg s p _ _ hp⟩
  · exact ⟨p, by cases s; simp_all⟩

theorem processGraphics_of_pixmap (cfg : Config) (s : PaperWidget) (aChar : Int) (p : QPixmap)
    (hp : s.pixmap = some p) :
    ∃ q, processGraphics cfg s aChar = some { s with x := s.x + 1, pixmap := some q } := by
  obtain ⟨q, hq⟩ := foldlM_repaint _
    (fun s a p hp => graphicsRow_repaint cfg (toUnsignedChar aChar) s a p hp)
    (List.range cfg.HP82240B_CHARACTER_HEIGHT) s p hp
  exact ⟨q, by simp [processGraphics, hq]⟩

theorem processNormalChar_of_pixmap (cfg : Config) (s : PaperWidget) (aChar : Int) (p : QPixmap)
    (hp : s.pixmap = some p) (hc : 32 ≤ aChar) :
    ∃ q, processNormalChar cfg s aChar =
      some { s with
        x := s.x + (if s.expanded then 2 else 1)
              + (cfg.HP82240B_CHARACTER_WIDTH + 1) * (if s.expanded then 2 else 1),
        pixmap := some q } := by
  obtain ⟨q, hq⟩ := foldlM_repaint
    (glyphColumn cfg
      ((if s.ecma94 then cfg.sFontEcma94 else cfg.sFontRoman8) (aChar - FIRST_PRINTABLE_CHAR))
      (if s.expanded then 2 else 1))
    (fun t a p hp => glyphColumn_repaint cfg _ _ t a p hp)
    (List.range cfg.HP82240B_CHARACTER_WIDTH)
    { s with x := s.x + (if s.expanded then 2 else 1) } p hp
  unfold processNormalChar
  rw [if_pos (by simpa [FIRST_PRINTABLE_CHAR] using hc)]
  simp only [hq]
  by_cases hu : s.underlined = true
  · simp only [hu, drawHorizontalLine, if_true]
    exact ⟨_, rfl⟩
  · simp only [hu]
    exact ⟨_, rfl⟩

theorem processNormalChar_ignored (cfg : Config) (s : PaperWidget) (aChar : Int)
    (hc : aChar < 32) : processNormalChar cfg s aChar = some s := by
  simp [processNormalChar, FIRST_PRINTABLE_CHAR, hc]

theorem removeFirstLine_of_pixmap (cfg : Config) (s : PaperWidget) (p : QPixmap)
    (hp : s.pixmap = some p) :
    removeFirstLine cfg s =
      some { s with
        printedText := removeFirstLineText cfg s.printedText,
        pixmap := some ((QPixmap.blank p.width p.height).drawPixmapRect 0 (toY cfg s 0) p
          0 (toY cfg s cfg.LINE_HEIGHT) p.width (p.height - toY cfg s cfg.LINE_HEIGHT)),
        lineCount := s.lineCount - 1,
        y := s.y - cfg.LINE_HEIGHT } := by
  simp only [removeFirstLine, hp]
  rfl

theorem lineFeed_below_max (cfg : Config) (s : PaperWidget) (p : QPixmap)
    (hp : s.pixmap = some p) (hl : s.lineCount < cfg.MAX_LINES) :
    ∃ q m, lineFeed cfg s =
      some { s with x := 0, y := s.y + cfg.LINE_HEIGHT, lineCount := s.lineCount + 1,
                    pixmap := some q, minimumHeight := m } := by
  unfold lineFeed
  rw [if_neg (by omega)]
  simp only [hp]
  split
  · exact ⟨_, _, rfl⟩
  · exact ⟨p, s.minimumHeight, rfl⟩

theorem lineFeed_at_max (cfg : Config) (s : PaperWidget) (p : QPixmap)
    (hp : s.pixmap = some p) (hl : cfg.MAX_LINES ≤ s.lineCount) :
    ∃ q m, lineFeed cfg s =
      some { s with x := 0, y := s.y - cfg.LINE_HEIGHT + cfg.LINE_HEIGHT,
                    lineCount := s.lineCount - 1 + 1,
                    printedText := removeFirstLineText cfg s.printedText,
                    pixmap := some q, minimumHeight := m } := by
  unfold lineFeed
  rw [if_pos (by omega), removeFirstLine_of_pixmap cfg s p hp]
  simp only []
  split
  · exact ⟨_, _, rfl⟩
  · exact ⟨_, s.minimumHeight, rfl⟩

theorem lineFeed_no_pixmap (cfg : Config) (s : PaperWidget) (hp : s.pixmap = none) :
    lineFeed cfg s = none := by
  unfold lineFeed
  by_cases hl : s.lineCount ≥ cfg.MAX_LINES
  · rw [if_pos hl]
    simp [removeFirstLine, hp]
  · rw [if_neg hl]
    simp [hp]

theorem charToInt_small (cfg : Config) (b : Byte) (hb : b.val < 128) :
    charToInt cfg b = (b.val : Int) := by
  unfold charToInt
  rw [if_neg]
  simp
  omega

theorem charToInt_signed_high (cfg : Config) (b : Byte) (hs : cfg.charIsSigned = true)
    (hb : 128 ≤ b.val) : charToInt cfg b = (b.val : Int) - 256 := by
  unfold charToInt
  rw [if_pos]
  simp [hs, hb]

theorem fresh_eq (cfg : Config) (w h : Int) :
    ∃ z o m q, fresh cfg w h =
      some { new cfg w h with zoom := z, xOffset := o, minimumHeight := m, pixmap := some q,
                              x := 0, y := 0, lineCount := 0 } :=
  ⟨_, _, _, _, rfl⟩

/-- Claim C1, evaluated on the code at the history `[27, 1]` (an escape and the
count of a graphics block whose column has not arrived yet), for a signed and
for an unsigned `char`.  The live `append` on a fresh session paints nothing and
leaves the cursor at x = 0 with one graphics byte expected.  `buildPixmap`
resets the cursor and the line count but not the decoder, so the replay takes
the byte 27 for the expected graphics column: the rebuilt raster has the cell
(0, 0) black and the cursor at x = 1.  The round trip of the claim fails here. -/
theorem rebuild_replays_from_stale_decoder :
    ∀ charIsSigned : Bool,
      (appendFresh (sampleConfig 3 charIsSigned) 186 260 [27, 1]).map
          (fun s => (s.x, s.y, s.lineCount, cellBlack (sampleConfig 3 charIsSigned) s 0 0))
        = some (0, 0, 0, false) ∧
      (appendFreshRebuilt (sampleConfig 3 charIsSigned) 186 260 [27, 1]).map
          (fun s => (s.x, s.y, s.lineCount, cellBlack (sampleConfig 3 charIsSigned) s 0 0))
        = some (1, 0, 0, true) := by
  decide

theorem printChar_terminator (cfg : Config) (s : PaperWidget)
    (he : s.lastIsEscape = false) (hg : s.expectedGraphicsChars ≤ 0) :
    printChar cfg s 10 = (lineFeed cfg s).map fun t => { t with lastIsEscape := false } := by
  have h10 : charToInt cfg 10 = 10 := charToInt_small cfg 10 (by decide)
  have hg' : ¬ (0 < s.expectedGraphicsChars) := by omega
  simp [printChar, dispatch, h10, he, hg', END_OF_LINE, endOfLine]

theorem print_feeds_empty_history (cfg : Config) (k : Nat) (s : PaperWidget) (p : QPixmap)
    (hp : s.pixmap = some p) (ht : s.printedText = [])
    (he : s.lastIsEscape = false) (hg : s.expectedGraphicsChars ≤ 0)
    (h0 : 0 ≤ s.lineCount) (h1 : s.lineCount ≤ cfg.MAX_LINES) :
    ∃ t, print cfg s (List.replicate k 10) = some t ∧ t.printedText = [] ∧
      t.lineCount = min (s.lineCount + k) cfg.MAX_LINES := by
  induction k generalizing s p with
  | zero => exact ⟨s, rfl, ht, by simp [h1]⟩
  | succ k ih =>
    by_cases hl : s.lineCount < cfg.MAX_LINES
    · obtain ⟨q, m, hq⟩ := lineFeed_below_max cfg s p hp hl
      have hstep : printChar cfg s 10 =
          some { s with x := 0, y := s.y + cfg.LINE_HEIGHT, lineCount := s.lineCount + 1,
                        pixmap := some q, minimumHeight := m, lastIsEscape := false } := by
        rw [printChar_terminator cfg s he hg, hq]; rfl
      obtain ⟨t, h1t, h2t, h3t⟩ := ih
        { s with x := 0, y := s.y + cfg.LINE_HEIGHT, lineCount := s.lineCount + 1,
                 pixmap := some q, minimumHeight := m, lastIsEscape := false }
        q rfl ht rfl hg (by show 0 ≤ s.lineCount + 1; omega)
        (by show s.lineCount + 1 ≤ _; omega)
      refine ⟨t, ?_, h2t, ?_⟩
      · rw [List.replicate_succ, print, hstep]; exact h1t
      · rw [h3t]
        show min (s.lineCount + 1 + (k : Int)) _ = min (s.lineCount + ((k + 1 : Nat) : Int)) _
        push_cast
        ring_nf
    · obtain ⟨q, m, hq⟩ := lineFeed_at_max cfg s p hp (by omega)
      have hstep : printChar cfg s 10 =
          some { s with x := 0, y := s.y - cfg.LINE_HEIGHT + cfg.LINE_HEIGHT,
                        lineCount := s.lineCount - 1 + 1,
                        printedText := removeFirstLineText cfg s.printedText,
                        pixmap := some q, minimumHeight := m, lastIsEscape := false } := by
        rw [printChar_terminator cfg s he hg, hq]; rfl
      obtain ⟨t, h1t, h2t, h3t⟩ := ih
        { s with x := 0, y := s.y - cfg.LINE_HEIGHT + cfg.LINE_HEIGHT,
                 lineCount := s.lineCount - 1 + 1,
                 printedText := removeFirstLineText cfg s.printedText,
                 pixmap := some q, minimumHeight := m, lastIsEscape := false }
        q rfl (by simp [ht, removeFirstLineText, firstTerminator])
        rfl hg (by show 0 ≤ s.lineCount - 1 + 1; omega)
        (by show s.lineCount - 1 + 1 ≤ _; omega)
      refine ⟨t, ?_, h2t, ?_⟩
      · rw [List.replicate_succ, print, hstep]; exact h1t
      · rw [h3t]
        show min (s.lineCount - 1 + 1 + (k : Int)) _ = min (s.lineCount + ((k + 1 : Nat) : Int)) _
        push_cast
        omega

/-- Claim C2, evaluated on the code at one `append` that carries
`MAX_LINES + 1` end-of-line bytes, on a fresh session.  `append` prints its
argument before adding it to the history, so every eviction of that call scans
a history that is still empty and removes nothing: afterwards the line count is
`MAX_LINES` while the history holds all `MAX_LINES + 1` terminators, the
evicted line included. -/
theorem append_single_call_keeps_evicted_lines (cfg : Config) (w h : Int)
    (hM : 0 ≤ cfg.MAX_LINES) :
    ∃ t, appendFresh cfg w h (List.replicate (cfg.MAX_LINES.toNat + 1) 10) = some t ∧
      t.lineCount = cfg.MAX_LINES ∧
      t.printedText = List.replicate (cfg.MAX_LINES.toNat + 1) 10 := by
  obtain ⟨z, o, m, q, hf⟩ := fresh_eq cfg w h
  obtain ⟨t, h1t, h2t, h3t⟩ := print_feeds_empty_history cfg (cfg.MAX_LINES.toNat + 1)
    { new cfg w h with zoom := z, xOffset := o, minimumHeight := m, pixmap := some q,
                       x := 0, y := 0, lineCount := 0 } q rfl rfl rfl (le_refl _) (le_refl _) hM
  refine ⟨{ t with printedText := t.printedText ++ List.replicate (cfg.MAX_LINES.toNat + 1) 10 },
    ?_, ?_, ?_⟩
  · simp only [appendFresh, hf, Option.bind, append, h1t]
  · show t.lineCount = _
    rw [h3t]
    show min (0 + ((cfg.MAX_LINES.toNat + 1 : Nat) : Int)) _ = _
    push_cast
    omega
  · show t.printedText ++ _ = _
    rw [h2t]; rfl

theorem append_single_call_keeps_evicted_lines_witness :
    0 ≤ (sampleConfig 3 true).MAX_LINES ∧
    ∃ t, appendFresh (sampleConfig 3 true) 186 260
        (List.replicate ((sampleConfig 3 true).MAX_LINES.toNat + 1) 10) = some t ∧
      t.lineCount = (sampleConfig 3 true).MAX_LINES ∧
      t.printedText = List.replicate ((sampleConfig 3 true).MAX_LINES.toNat + 1) 10 :=
  ⟨by decide, append_single_call_keeps_evicted_lines (sampleConfig 3 true) 186 260 (by decide)⟩

/-- Claim C3, evaluated on the code where `char` is signed, at the graphics
count n = 128 followed by 128 data bytes of value 65.  The count is read as
-128, which `processEscape` stores as the number of graphics bytes expected, so
no graphics block starts: the 128 data bytes are each dispatched to
`processNormalChar` and drawn as the glyph of `A`, no graphics column is drawn,
the cursor advances by 128 glyph cells (7 columns each) instead of 128 columns
and the graphics count is left at -128. -/
theorem graphics_count_above_127_signed :
    (fresh (sampleConfig 3 true) 186 260).map
        (fun s => printCalls (sampleConfig 3 true) s ([27, 128] ++ List.replicate 128 65))
      = some ([Call.escapeFound, Call.processEscape (-128)]
              ++ List.replicate 128 (Call.processNormalChar 65)) ∧
    ((fresh (sampleConfig 3 true) 186 260).bind
        (fun s => print (sampleConfig 3 true) s ([27, 128] ++ List.replicate 128 65))).map
        (fun t => (t.x, t.expectedGraphicsChars))
      = some (128 * 7, -128) := by
  decide

theorem print_escape_signed_high (cfg : Config) (s : PaperWidget) (b : Byte)
    (hs : cfg.charIsSigned = true) (hN : Normal s) (hb : 128 ≤ b.val) :
    print cfg s [27, b] = some { s with expectedGraphicsChars := (b.val : Int) - 256 } := by
  obtain ⟨he, hg⟩ := hN
  have h27 : charToInt cfg 27 = 27 := charToInt_small cfg 27 (by decide)
  have hc := charToInt_signed_high cfg b hs hb
  have hlt : (b.val : Int) < 256 := by exact_mod_cast b.isLt
  have hge : (128 : Int) ≤ (b.val : Int) := by exact_mod_cast hb
  have hg' : ¬ (0 < s.expectedGraphicsChars) := by omega
  have h1 : printChar cfg s 27 = some { s with lastIsEscape := true } := by
    simp [printChar, dispatch, h27, he, hg', END_OF_LINE, LINE_FEED, ESCAPE_CHAR]
  have h2 : printChar cfg { s with lastIsEscape := true } b =
      some { s with expectedGraphicsChars := (b.val : Int) - 256 } := by
    have e1 : ¬ ((b.val : Int) - 256 = 255) := by omega
    have e2 : ¬ ((b.val : Int) - 256 = 254) := by omega
    have e3 : ¬ ((b.val : Int) - 256 = 253) := by omega
    have e4 : ¬ ((b.val : Int) - 256 = 252) := by omega
    have e5 : ¬ ((b.val : Int) - 256 = 251) := by omega
    have e6 : ¬ ((b.val : Int) - 256 = 250) := by omega
    have e7 : ¬ ((b.val : Int) - 256 = 249) := by omega
    have e8 : ¬ ((b.val : Int) - 256 = 248) := by omega
    have e9 : (b.val : Int) - 256 ≤ 166 := by omega
    cases s
    simp only [] at he hg'
    subst he
    simp [printChar, hg', dispatch, hc, processEscape, RESET_PRINTER, SELF_TEST,
      USE_EXPANDED_CHARACTERS, USE_NORMAL_CHARACTERS, START_UNDERLINING, STOP_UNDERLINING,
      USE_ECMA94, USE_ROMAN8, GRAPHICS_MAX, e1, e2, e3, e4, e5, e6, e7, e8, e9]
  simp only [print, h1, h2]

/-- Claim C4, evaluated on the code where `char` is signed.  The second byte
of `[27, b]` is read by `int c=aText.at(charIndex)`, so a byte `b` in 167..254
reaches `processEscape` as `b - 256`, a negative number.  None of the `case`
labels 248..254 matches it and the `default` branch stores it as the graphics
count: the attributes (expanded, underline, code page) stay as they were for
the command bytes 248..253, and for every `b` of the range, 254 and 167..247
included, the state does change, `expectedGraphicsChars` becoming `b - 256`. -/
theorem escape_command_bytes_read_negative (cfg : Config) (s : PaperWidget) (b : Byte)
    (hs : cfg.charIsSigned = true) (hN : Normal s) (hlo : 167 ≤ b.val) (hhi : b.val ≤ 254) :
    print cfg s [27, b] = some { s with expectedGraphicsChars := (b.val : Int) - 256 } ∧
      (b.val : Int) - 256 < 0 := by
  have hlt : (b.val : Int) ≤ 254 := by exact_mod_cast hhi
  exact ⟨print_escape_signed_high cfg s b hs hN (by omega), by omega⟩

theorem escape_command_bytes_read_negative_witness :
    (sampleConfig 3 true).charIsSigned = true ∧ Normal (new (sampleConfig 3 true) 186 260) ∧
    167 ≤ (253 : Byte).val ∧ (253 : Byte).val ≤ 254 ∧
    print (sampleConfig 3 true) (new (sampleConfig 3 true) 186 260) [27, 253] =
      some { new (sampleConfig 3 true) 186 260 with
        expectedGraphicsChars := ((253 : Byte).val : Int) - 256 } ∧
    (((253 : Byte).val : Int) - 256 < 0) :=
  ⟨rfl, by decide, by decide, by decide,
    escape_command_bytes_read_negative (sampleConfig 3 true) (new (sampleConfig 3 true) 186 260)
      253 rfl (by decide) (by decide) (by decide)⟩

/-- Where `char` is signed the byte 255 of `[27, 255]` reaches `processEscape`
as -1, the label `RESET_PRINTER` does not match and `resetPrinter` is not
called: every member keeps its value but the graphics count, which becomes -1. -/
theorem reset_command_not_decoded (cfg : Config) (s : PaperWidget)
    (hs : cfg.charIsSigned = true) (hN : Normal s) :
    print cfg s [27, 255] = some { s with expectedGraphicsChars := -1 } :=
  print_escape_signed_high cfg s 255 hs hN (by decide)

/-- Claim C6, evaluated on the code where `char` is signed.  A byte `b` in
128..255 is none of the control bytes 27, 10 and 4, and it reaches
`processNormalChar` as `b - 256`, which is below `FIRST_PRINTABLE_CHAR`: no
glyph is drawn and the state is unchanged, where the claim has one glyph at
font index `b - 32`. -/
theorem high_bytes_draw_no_glyph (cfg : Config) (s : PaperWidget) (b : Byte)
    (hs : cfg.charIsSigned = true) (hN : Normal s) (hb : 128 ≤ b.val) :
    print cfg s [b] = some s ∧ glyphsDrawn cfg s [b] = [] := by
  obtain ⟨he, hg⟩ := hN
  have hc := charToInt_signed_high cfg b hs hb
  have hlt : (b.val : Int) < 256 := by exact_mod_cast b.isLt
  have hg' : ¬ (0 < s.expectedGraphicsChars) := by omega
  have hd : dispatch s (charToInt cfg b) = Call.processNormalChar ((b.val : Int) - 256) := by
    have e1 : ¬ ((b.val : Int) - 256 = 10) := by omega
    have e2 : ¬ ((b.val : Int) - 256 = 4) := by omega
    have e3 : ¬ ((b.val : Int) - 256 = 27) := by omega
    simp [dispatch, hc, hg', he, END_OF_LINE, LINE_FEED, ESCAPE_CHAR, e1, e2, e3]
  have hp : printChar cfg s b = some s := by
    unfold printChar
    simp only [hd, processNormalChar_ignored cfg s _ (show (b.val : Int) - 256 < 32 by omega)]
    cases s
    simp only [] at he
    subst he
    rfl
  constructor
  · simp only [print, hp]
  · have hn : ¬ (32 ≤ (b.val : Int) - 256) := by omega
    simp [glyphsDrawn, printCalls, hd, hp, Call.glyphIndex, FIRST_PRINTABLE_CHAR, hn]

theorem high_bytes_draw_no_glyph_witness :
    (sampleConfig 3 true).charIsSigned = true ∧ Normal (new (sampleConfig 3 true) 186 260) ∧
    128 ≤ (200 : Byte).val ∧
    print (sampleConfig 3 true) (new (sampleConfig 3 true) 186 260) [200] =
      some (new (sampleConfig 3 true) 186 260) ∧
    glyphsDrawn (sampleConfig 3 true) (new (sampleConfig 3 true) 186 260) [200] = [] :=
  ⟨rfl, by decide, by decide,
    high_bytes_draw_no_glyph (sampleConfig 3 true) (new (sampleConfig 3 true) 186 260) 200
      rfl (by decide) (by decide)⟩

theorem printChar_lineFeedByte (cfg : Config) (s : PaperWidget)
    (he : s.lastIsEscape = false) (hg : s.expectedGraphicsChars ≤ 0) :
    printChar cfg s 4 = (lineFeed cfg s).map fun t => { t with lastIsEscape := false } := by
  have h4 : charToInt cfg 4 = 4 := charToInt_small cfg 4 (by decide)
  have hg' : ¬ (0 < s.expectedGraphicsChars) := by omega
  simp [printChar, dispatch, h4, he, hg', END_OF_LINE, LINE_FEED]

theorem printChar_glyph (cfg : Config) (s : PaperWidget) (b : Byte) (p : QPixmap)
    (hN : Normal s) (hp : s.pixmap = some p) (hlo : 32 ≤ b.val) (hhi : b.val < 128) :
    dispatch s (charToInt cfg b) = Call.processNormalChar (b.val : Int) ∧
    ∃ q, printChar cfg s b =
      some { s with
        x := s.x + (if s.expanded then 2 else 1)
              + (cfg.HP82240B_CHARACTER_WIDTH + 1) * (if s.expanded then 2 else 1),
        pixmap := some q } := by
  obtain ⟨he, hg⟩ := hN
  have hc := charToInt_small cfg b hhi
  have hlo' : (32 : Int) ≤ (b.val : Int) := by exact_mod_cast hlo
  have hg' : ¬ (0 < s.expectedGraphicsChars) := by omega
  have hd : dispatch s (charToInt cfg b) = Call.processNormalChar (b.val : Int) := by
    have e1 : ¬ ((b.val : Int) = 10) := by omega
    have e2 : ¬ ((b.val : Int) = 4) := by omega
    have e3 : ¬ ((b.val : Int) = 27) := by omega
    simp [dispatch, hc, hg', he, END_OF_LINE, LINE_FEED, ESCAPE_CHAR, e1, e2, e3]
  refine ⟨hd, ?_⟩
  obtain ⟨q, hq⟩ := processNormalChar_of_pixmap cfg s (b.val : Int) p hp hlo'
  refine ⟨q, ?_⟩
  unfold printChar
  simp only [hd, hq]
  cases s
  simp only [] at he
  subst he
  rfl

/-- The line terminators where a raster is present.  In the normal state the
bytes 10 and 4 have the same effect on every session state.  When a raster is
present and `lineCount < MAX_LINES` that effect is: x set to 0, y increased by
`LINE_HEIGHT`, `lineCount` increased by 1, the raster possibly grown, and every
other member (attributes and history among them) unchanged.  Printing
`[72, 105, 10]` then calls `processNormalChar` for `H` and for `i` with the
cursor still on the row it started on, and ends with x = 0 and y one
`LINE_HEIGHT` further. -/
theorem line_terminators_advance_one_line (cfg : Config) (s : PaperWidget)
    (hN : Normal s) :
    printChar cfg s 10 = printChar cfg s 4 ∧
    ∀ p : QPixmap, s.pixmap = some p → s.lineCount < cfg.MAX_LINES →
    (∃ q m, printChar cfg s 10 =
      some { s with x := 0, y := s.y + cfg.LINE_HEIGHT, lineCount := s.lineCount + 1,
                    pixmap := some q, minimumHeight := m }) ∧
    (∃ t1 t2 t3, printChar cfg s 72 = some t1 ∧ printChar cfg t1 105 = some t2 ∧
      printChar cfg t2 10 = some t3 ∧ print cfg s [72, 105, 10] = some t3 ∧
      printCalls cfg s [72, 105, 10] =
        [Call.processNormalChar 72, Call.processNormalChar 105, Call.endOfLine] ∧
      glyphsDrawn cfg s [72, 105, 10] = [72 - 32, 105 - 32] ∧
      t1.y = s.y ∧ t2.y = s.y ∧ t3.x = 0 ∧ t3.y = s.y + cfg.LINE_HEIGHT ∧
      t3.lineCount = s.lineCount + 1) := by
  have he := hN.1
  have hg := hN.2
  have hg' : ¬ (0 < s.expectedGraphicsChars) := by omega
  have hfeed : ∀ (u : PaperWidget) (pu : QPixmap), Normal u → u.pixmap = some pu →
      u.lineCount < cfg.MAX_LINES →
      ∃ q m, printChar cfg u 10 =
        some { u with x := 0, y := u.y + cfg.LINE_HEIGHT, lineCount := u.lineCount + 1,
                      pixmap := some q, minimumHeight := m } := by
    intro u pu hNu hpu hlu
    obtain ⟨q, m, hq⟩ := lineFeed_below_max cfg u pu hpu hlu
    refine ⟨q, m, ?_⟩
    rw [printChar_terminator cfg u hNu.1 hNu.2, hq]
    have hue := hNu.1
    cases u
    simp only [] at hue
    subst hue
    rfl
  refine ⟨?_, fun p hp hl => ⟨hfeed s p hN hp hl, ?_⟩⟩
  · rw [printChar_terminator cfg s he hg, printChar_lineFeedByte cfg s he hg]
  · obtain ⟨hd1, q1, h1⟩ := printChar_glyph cfg s 72 p hN hp (by decide) (by decide)
    generalize ht1 : ({ s with
        x := s.x + (if s.expanded then 2 else 1)
              + (cfg.HP82240B_CHARACTER_WIDTH + 1) * (if s.expanded then 2 else 1),
        pixmap := some q1 } : PaperWidget) = t1 at h1
    have hN1 : Normal t1 := by rw [← ht1]; exact ⟨he, hg⟩
    have hp1 : t1.pixmap = some q1 := by rw [← ht1]
    have hy1 : t1.y = s.y := by rw [← ht1]
    have hl1 : t1.lineCount = s.lineCount := by rw [← ht1]
    obtain ⟨hd2, q2, h2⟩ := printChar_glyph cfg t1 105 q1 hN1 hp1 (by decide) (by decide)
    generalize ht2 : ({ t1 with
        x := t1.x + (if t1.expanded then 2 else 1)
              + (cfg.HP82240B_CHARACTER_WIDTH + 1) * (if t1.expanded then 2 else 1),
        pixmap := some q2 } : PaperWidget) = t2 at h2
    have hN2 : Normal t2 := by rw [← ht2]; exact hN1
    have hp2 : t2.pixmap = some q2 := by rw [← ht2]
    have hy2 : t2.y = s.y := by rw [← ht2]; exact hy1
    have hl2 : t2.lineCount = s.lineCount := by rw [← ht2]; exact hl1
    obtain ⟨q3, m3, h3⟩ := hfeed t2 q2 hN2 hp2 (by omega)
    have h10 : charToInt cfg 10 = 10 := charToInt_small cfg 10 (by decide)
    refine ⟨_, _, _, h1, h2, h3, ?_, ?_, ?_, hy1, hy2, rfl, ?_, ?_⟩
    rotate_left 3
    · show t2.y + cfg.LINE_HEIGHT = _
      rw [hy2]
    · show t2.lineCount + 1 = _
      rw [hl2]
    · simp only [print, h1, h2, h3]
    · have hd3 : ∀ u : PaperWidget, u.lastIsEscape = false → ¬ (0 < u.expectedGraphicsChars) →
          dispatch u (charToInt cfg 10) = Call.endOfLine := by
        intro u hu1 hu2
        simp [dispatch, h10, hu1, hu2, END_OF_LINE]
      simp only [printCalls, h1, h2, h3, hd1, hd2]
      rw [hd3 t2 hN2.1 (by have := hN2.2; omega)]
      rfl
    · have hd3 : ∀ u : PaperWidget, u.lastIsEscape = false → ¬ (0 < u.expectedGraphicsChars) →
          dispatch u (charToInt cfg 10) = Call.endOfLine := by
        intro u hu1 hu2
        simp [dispatch, h10, hu1, hu2, END_OF_LINE]
      simp only [glyphsDrawn, printCalls, h1, h2, h3, hd1, hd2]
      rw [hd3 t2 hN2.1 (by have := hN2.2; omega)]
      decide

theorem line_terminators_advance_one_line_witness :
    Normal sampleSession ∧
    sampleSession.pixmap = some (QPixmap.blank 186 260) ∧
    sampleSession.lineCount < (sampleConfig 3 false).MAX_LINES ∧
    (∃ q m, printChar (sampleConfig 3 false) sampleSession 10 =
      some { sampleSession with
        x := 0, y := sampleSession.y + (sampleConfig 3 false).LINE_HEIGHT,
        lineCount := sampleSession.lineCount + 1, pixmap := some q, minimumHeight := m }) ∧
    (∃ t1 t2 t3, printChar (sampleConfig 3 false) sampleSession 72 = some t1 ∧
      printChar (sampleConfig 3 false) t1 105 = some t2 ∧
      printChar (sampleConfig 3 false) t2 10 = some t3 ∧
      print (sampleConfig 3 false) sampleSession [72, 105, 10] = some t3 ∧
      printCalls (sampleConfig 3 false) sampleSession [72, 105, 10] =
        [Call.processNormalChar 72, Call.processNormalChar 105, Call.endOfLine] ∧
      glyphsDrawn (sampleConfig 3 false) sampleSession [72, 105, 10] = [72 - 32, 105 - 32] ∧
      t1.y = sampleSession.y ∧ t2.y = sampleSession.y ∧ t3.x = 0 ∧
      t3.y = sampleSession.y + (sampleConfig 3 false).LINE_HEIGHT ∧
      t3.lineCount = sampleSession.lineCount + 1) :=
  ⟨by decide, rfl, by decide,
    (line_terminators_advance_one_line (sampleConfig 3 false) sampleSession (by decide)).2
      (QPixmap.blank 186 260) rfl (by decide)⟩

theorem isTerminator_iff (cfg : Config) (b : Byte) :
    (charToInt cfg b = LINE_FEED ∨ charToInt cfg b = END_OF_LINE) ↔ (b = 4 ∨ b = 10) := by
  have hlt : b.val < 256 := b.isLt
  have h4 : b = 4 ↔ b.val = 4 := by
    constructor
    · intro h; rw [h]; rfl
    · intro h; exact Fin.ext h
  have h10 : b = 10 ↔ b.val = 10 := by
    constructor
    · intro h; rw [h]; rfl
    · intro h; exact Fin.ext h
  rw [h4, h10]
  unfold charToInt LINE_FEED END_OF_LINE
  by_cases hs : cfg.charIsSigned = true <;> by_cases hb : 128 ≤ b.val <;>
    simp only [hs, hb, Bool.true_and, Bool.false_and, decide_True, decide_False, if_true,
      if_false, Bool.false_eq_true] <;> omega

theorem removeFirstLineText_no_terminator (cfg : Config) (text : List Byte)
    (h : ∀ a ∈ text, a ≠ 4 ∧ a ≠ 10) :
    firstTerminator cfg text = none := by
  induction text with
  | nil => rfl
  | cons a rest ih =>
    have ha := h a (List.mem_cons_self _ _)
    have hn : ¬ (charToInt cfg a = LINE_FEED ∨ charToInt cfg a = END_OF_LINE) := by
      rw [isTerminator_iff]; tauto
    simp only [firstTerminator, if_neg hn, ih (fun x hx => h x (List.mem_cons_of_mem _ hx))]
    rfl

theorem firstTerminator_split (cfg : Config) (pre : List Byte) (b : Byte) (post : List Byte)
    (hb : b = 4 ∨ b = 10) (h : ∀ a ∈ pre, a ≠ 4 ∧ a ≠ 10) :
    firstTerminator cfg (pre ++ b :: post) = some pre.length := by
  induction pre with
  | nil =>
    have hy : charToInt cfg b = LINE_FEED ∨ charToInt cfg b = END_OF_LINE :=
      (isTerminator_iff cfg b).2 hb
    simp only [List.nil_append, firstTerminator, if_pos hy, List.length_nil]
  | cons a rest ih =>
    have ha := h a (List.mem_cons_self _ _)
    have hn : ¬ (charToInt cfg a = LINE_FEED ∨ charToInt cfg a = END_OF_LINE) := by
      rw [isTerminator_iff]; tauto
    have ih' := ih (fun x hx => h x (List.mem_cons_of_mem _ hx))
    simp only [List.cons_append, firstTerminator, if_neg hn, List.length_cons]
    rw [show rest.append (b :: post) = rest ++ b :: post from rfl, ih']
    rfl

/-- Claim C8.  With a raster present, `removeFirstLine` succeeds and changes
four members only: the history, the raster, `lineCount` (one less) and `y`
(`LINE_HEIGHT` less).  When the history holds a byte 4 or 10, the new history
is what follows the first such byte; when it holds none, the history is
unchanged.  The new raster has the size of the old one (a raster of positive
width and height), and when the old one is higher than one zoomed line it
shows the old content moved up by one line:
a pixel is black exactly when it lies at or below the top margin and the old
pixel one line further down was black. -/
theorem removeFirstLine_truncates_history (cfg : Config) (s : PaperWidget) (p : QPixmap)
    (hp : s.pixmap = some p) :
    ∃ (newText : List Byte) (q : QPixmap),
      removeFirstLine cfg s =
        some { s with printedText := newText, pixmap := some q,
                      lineCount := s.lineCount - 1, y := s.y - cfg.LINE_HEIGHT } ∧
      (∀ pre b post, s.printedText = pre ++ b :: post → (b = 4 ∨ b = 10) →
        (∀ a ∈ pre, a ≠ 4 ∧ a ≠ 10) → newText = post) ∧
      ((∀ a ∈ s.printedText, a ≠ 4 ∧ a ≠ 10) → newText = s.printedText) ∧
      (0 < p.width → 0 < p.height →
        q.width = p.width ∧ q.height = p.height ∧
        (toY cfg s cfg.LINE_HEIGHT < p.height → ∀ px py : Int,
          q.black px py =
            (p.inside px py && decide (toY cfg s 0 ≤ py)
              && p.inside px (py + cfg.LINE_HEIGHT * s.zoom)
              && p.black px (py + cfg.LINE_HEIGHT * s.zoom)))) := by
  refine ⟨_, _, removeFirstLine_of_pixmap cfg s p hp, ?_, ?_, ?_⟩
  · intro pre b post htext hb hpre
    simp only [removeFirstLineText, htext, firstTerminator_split cfg pre b post hb hpre]
    simp
  · intro h
    simp only [removeFirstLineText, removeFirstLineText_no_terminator cfg _ h]
  · intro hw0 hh0
    have hb : QPixmap.blank p.width p.height =
        { width := p.width, height := p.height, black := fun _ _ => false } := by
      unfold QPixmap.blank
      rw [if_pos ⟨hw0, hh0⟩]
    rw [hb]
    refine ⟨rfl, rfl, ?_⟩
    intro hh px py
    have e1 : toY cfg s 0 = cfg.PAPER_VERTICAL_MARGIN.tdiv 2 := by simp [toY]
    have e2 : toY cfg s cfg.LINE_HEIGHT =
        cfg.PAPER_VERTICAL_MARGIN.tdiv 2 + cfg.LINE_HEIGHT * s.zoom := rfl
    rw [e2] at hh
    simp only [QPixmap.drawPixmapRect, QPixmap.inside, e1, e2]
    generalize cfg.LINE_HEIGHT * s.zoom = d at hh ⊢
    generalize cfg.PAPER_VERTICAL_MARGIN.tdiv 2 = mg at hh ⊢
    have hsh : ¬ (p.height - (mg + d) ≤ 0) := by omega
    have e3 : px - 0 + 0 = px := by omega
    have e4 : py - mg + (mg + d) = py + d := by omega
    simp only [if_neg hsh, e3, e4]
    by_cases hw : p.width ≤ 0
    · have : ¬ (px < p.width ∧ 0 ≤ px) := by omega
      simp only [if_pos hw]
      by_cases c1 : 0 ≤ px <;> by_cases c2 : px < p.width <;> simp [c1, c2]
      omega
    · simp only [if_neg hw]
      by_cases c1 : 0 ≤ px <;> by_cases c2 : px < p.width <;>
        by_cases c3 : 0 ≤ py <;> by_cases c4 : py < p.height <;>
        by_cases c5 : mg ≤ py <;> by_cases c6 : py + d < p.height <;>
        by_cases c7 : 0 ≤ py + d <;> simp [c1, c2, c3, c4, c5, c6, c7]
      all_goals omega

theorem removeFirstLine_truncates_history_witness :
    ({ sampleSession with printedText := [65, 10, 66] } : PaperWidget).pixmap
      = some (QPixmap.blank 186 260) ∧
    ∃ (newText : List Byte) (q : QPixmap),
      removeFirstLine (sampleConfig 3 false) { sampleSession with printedText := [65, 10, 66] } =
        some { ({ sampleSession with printedText := [65, 10, 66] } : PaperWidget) with
          printedText := newText, pixmap := some q,
          lineCount := ({ sampleSession with printedText := [65, 10, 66] } : PaperWidget).lineCount - 1,
          y := ({ sampleSession with printedText := [65, 10, 66] } : PaperWidget).y
                - (sampleConfig 3 false).LINE_HEIGHT } ∧
      (∀ pre b post,
        ({ sampleSession with printedText := [65, 10, 66] } : PaperWidget).printedText
          = pre ++ b :: post → (b = 4 ∨ b = 10) →
        (∀ a ∈ pre, a ≠ 4 ∧ a ≠ 10) → newText = post) ∧
      ((∀ a ∈ ({ sampleSession with printedText := [65, 10, 66] } : PaperWidget).printedText,
          a ≠ 4 ∧ a ≠ 10) →
        newText = ({ sampleSession with printedText := [65, 10, 66] } : PaperWidget).printedText) ∧
      (0 < (QPixmap.blank 186 260).width → 0 < (QPixmap.blank 186 260).height →
        q.width = (QPixmap.blank 186 260).width ∧ q.height = (QPixmap.blank 186 260).height ∧
        (toY (sampleConfig 3 false) { sampleSession with printedText := [65, 10, 66] }
            (sampleConfig 3 false).LINE_HEIGHT < (QPixmap.blank 186 260).height →
          ∀ px py : Int,
          q.black px py =
            ((QPixmap.blank 186 260).inside px py
              && decide (toY (sampleConfig 3 false)
                  { sampleSession with printedText := [65, 10, 66] } 0 ≤ py)
              && (QPixmap.blank 186 260).inside px
                  (py + (sampleConfig 3 false).LINE_HEIGHT
                    * ({ sampleSession with printedText := [65, 10, 66] } : PaperWidget).zoom)
              && (QPixmap.blank 186 260).black px
                  (py + (sampleConfig 3 false).LINE_HEIGHT
                    * ({ sampleSession with printedText := [65, 10, 66] } : PaperWidget).zoom)))) :=
  ⟨rfl, removeFirstLine_truncates_history (sampleConfig 3 false)
    { sampleSession with printedText := [65, 10, 66] } (QPixmap.blank 186 260) rfl⟩

/-- Claim C9, evaluated on the code at `[27, 252, 65]` and `[27, 253, 65]`
(where `char` is unsigned, so that the commands are decoded), on the empty
session at the origin with the glyph of `A`; the lists are the black columns of
the rows 0..7.  In normal mode the glyph starts at column 1 and is 5 columns
wide.  In expanded mode it starts at column 2 and `processNormalChar` draws
glyph column c as a line of length 2 at column 2 + c, not at 2 + 2c: the result
is the glyph merged with a copy of itself one column to the right, 6 columns
wide, and not the 2× stretch of 10 columns (on row 0 the columns 3..6 are
black, where the stretch of the normal row has the columns 4..9). -/
theorem expanded_glyph_not_stretched :
    ((print (sampleConfig 3 false) sampleSession [27, 252, 65]).map fun t =>
        (t.expanded, (List.range 8).map fun r => blackColumns (sampleConfig 3 false) t 16 r))
      = some (false,
          [[2, 3, 4], [1, 5], [1, 5], [1, 5], [1, 2, 3, 4, 5], [1, 5], [1, 5], []]) ∧
    ((print (sampleConfig 3 false) sampleSession [27, 253, 65]).map fun t =>
        (t.expanded, (List.range 8).map fun r => blackColumns (sampleConfig 3 false) t 16 r))
      = some (true,
          [[3, 4, 5, 6], [2, 3, 6, 7], [2, 3, 6, 7], [2, 3, 6, 7], [2, 3, 4, 5, 6, 7],
           [2, 3, 6, 7], [2, 3, 6, 7], []]) := by
  decide

/-- Claim C10, evaluated on the code at `[27, 251, 65, 27, 250, 72]`
(underline on, `A`, underline off, `H`) on the empty session at the origin; the
lists are the black columns of row 8, the row beneath the glyphs.  Where `char`
is signed the byte 251 is read as -5, underlining is never switched on and no
rule is drawn under `A`.  Where `char` is unsigned the rule covers the columns
0..6 of the cell of `A` and nothing of the cell of `H`. -/
theorem underline_command_not_decoded :
    ((print (sampleConfig 3 true) sampleSession [27, 251, 65, 27, 250, 72]).map fun t =>
        (t.x, blackColumns (sampleConfig 3 true) t 16 8))
      = some (14, []) ∧
    ((print (sampleConfig 3 false) sampleSession [27, 251, 65, 27, 250, 72]).map fun t =>
        (t.x, blackColumns (sampleConfig 3 false) t 16 8))
      = some (14, [0, 1, 2, 3, 4, 5, 6]) := by
  decide

/-- A loop whose body adds ink to the raster adds the ink of all its iterations. -/
theorem foldlM_addInk {α : Type} (f : PaperWidget → α → Option PaperWidget)
    (ink : α → Int → Int → Bool) (s : PaperWidget)
    (hf : ∀ (a : α) (p : QPixmap), f { s with pixmap := some p } a =
      some { s with pixmap := some (p.addInk (ink a)) })
    (l : List α) (p : QPixmap) :
    l.foldlM f { s with pixmap := some p } =
      some { s with pixmap := some (p.addInk fun px py => l.any fun a => ink a px py) } := by
  induction l generalizing p with
  | nil =>
    simp only [List.foldlM_nil, List.any_nil, QPixmap.addInk_none]
    rfl
  | cons a l ih =>
    rw [List.foldlM_cons, hf a p]
    show (l.foldlM f { s with pixmap := some (p.addInk (ink a)) }) = _
    rw [ih (p.addInk (ink a)), QPixmap.addInk_addInk]
    simp only [List.any_cons]

theorem glyphRow_addInk (cfg : Config) (charColumn charX : Nat) (inc : Int)
    (s : PaperWidget) (charY : Nat) (p : QPixmap) :
    glyphRow cfg charColumn charX inc { s with pixmap := some p } charY =
      some { s with pixmap := some (p.addInk fun px py =>
        columnBit charColumn charY && lineInk cfg s (s.x + charX) (s.y + charY) inc px py) } := by
  unfold glyphRow
  by_cases hb : columnBit charColumn charY = true
  · rw [if_pos hb]
    simp only [drawHorizontalLine, QPixmap.fillRect_eq_addInk, hb, Bool.true_and]
    rfl
  · rw [if_neg hb]
    have hb' : columnBit charColumn charY = false := by simpa using hb
    simp only [hb', Bool.false_and, QPixmap.addInk_none]

theorem glyphColumn_addInk (cfg : Config) (fontDef : FONTDEF) (inc : Int)
    (s : PaperWidget) (charX : Nat) (p : QPixmap) :
    glyphColumn cfg fontDef inc { s with pixmap := some p } charX =
      some { s with pixmap := some (p.addInk fun px py =>
        (List.range cfg.HP82240B_CHARACTER_HEIGHT).any fun charY =>
          columnBit (fontDef.byCol charX % 256) charY &&
            lineInk cfg s (s.x + charX) (s.y + charY) inc px py) } := by
  unfold glyphColumn
  exact foldlM_addInk _ _ s (fun a q => glyphRow_addInk cfg _ charX inc s a q) _ p

theorem processNormalChar_addInk (cfg : Config) (s : PaperWidget) (aChar : Int) (p : QPixmap)
    (hp : s.pixmap = some p) (hc : 32 ≤ aChar) :
    processNormalChar cfg s aChar =
      some { s with
        x := s.x + (if s.expanded then 2 else 1)
              + (cfg.HP82240B_CHARACTER_WIDTH + 1) * (if s.expanded then 2 else 1),
        pixmap := some (p.addInk fun px py =>
          glyphInk cfg s aChar px py || underlineInk cfg s px py) } := by
  have hfold := foldlM_addInk
    (glyphColumn cfg
      ((if s.ecma94 then cfg.sFontEcma94 else cfg.sFontRoman8) (aChar - FIRST_PRINTABLE_CHAR))
      (if s.expanded then 2 else 1)) _
    { s with x := s.x + (if s.expanded then 2 else 1) }
    (fun a q => glyphColumn_addInk cfg
      ((if s.ecma94 then cfg.sFontEcma94 else cfg.sFontRoman8) (aChar - FIRST_PRINTABLE_CHAR))
      (if s.expanded then 2 else 1)
      { s with x := s.x + (if s.expanded then 2 else 1) } a q)
    (List.range cfg.HP82240B_CHARACTER_WIDTH) p
  have hs1 : ({ s with x := s.x + (if s.expanded then 2 else 1) } : PaperWidget) =
      { ({ s with x := s.x + (if s.expanded then 2 else 1) } : PaperWidget) with
        pixmap := some p } := by
    cases s
    simp_all
  have hx : s.x + (if s.expanded then (2 : Int) else 1) - (if s.expanded then 2 else 1) = s.x := by
    omega
  unfold processNormalChar
  rw [if_pos (by simpa [FIRST_PRINTABLE_CHAR] using hc)]
  simp only []
  rw [hs1, hfold]
  simp only []
  by_cases hu : s.underlined = true
  · simp only [hu, if_true, drawHorizontalLine, QPixmap.fillRect_eq_addInk,
      QPixmap.addInk_addInk, hx]
    simp only [glyphInk, underlineInk, lineInk, hu, Bool.true_and]
    rfl
  · have hu' : s.underlined = false := by simpa using hu
    simp only [hu', Bool.false_eq_true, if_false]
    simp only [glyphInk, underlineInk, lineInk, hu', Bool.false_and, Bool.or_false]
    rfl

theorem lineInk_cell (cfg : Config) (s : PaperWidget) (hz : 0 < s.zoom)
    (anX anY aLength cx cy : Int) :
    lineInk cfg s anX anY aLength (toX cfg s cx) (toY cfg s cy) =
      (decide (anX ≤ cx) && decide (cx < anX + aLength) && decide (cy = anY)) := by
  have h1 : (toX cfg s anX ≤ toX cfg s cx) ↔ anX ≤ cx := by
    unfold toX
    constructor
    · intro h
      have : anX * s.zoom ≤ cx * s.zoom := by omega
      exact le_of_mul_le_mul_right this hz
    · intro h
      have : anX * s.zoom ≤ cx * s.zoom := mul_le_mul_of_nonneg_right h (le_of_lt hz)
      omega
  have h2 : (toX cfg s cx < toX cfg s anX + aLength * s.zoom) ↔ cx < anX + aLength := by
    unfold toX
    constructor
    · intro h
      have : cx * s.zoom < (anX + aLength) * s.zoom := by rw [add_mul]; omega
      exact lt_of_mul_lt_mul_right this (le_of_lt hz)
    · intro h
      have : cx * s.zoom < (anX + aLength) * s.zoom := mul_lt_mul_of_pos_right h hz
      rw [add_mul] at this
      omega
  have h3 : (toY cfg s anY ≤ toY cfg s cy ∧ toY cfg s cy < toY cfg s anY + s.zoom) ↔ cy = anY := by
    unfold toY
    constructor
    · rintro ⟨ha, hb⟩
      have a1 : anY * s.zoom ≤ cy * s.zoom := by omega
      have a2 : cy * s.zoom < (anY + 1) * s.zoom := by rw [add_mul]; omega
      have b1 := le_of_mul_le_mul_right a1 hz
      have b2 := lt_of_mul_lt_mul_right a2 (le_of_lt hz)
      omega
    · intro h
      subst h
      constructor <;> omega
  unfold lineInk inRect
  rw [Bool.and_assoc (decide (toX cfg s anX ≤ toX cfg s cx) && _)]
  rw [← Bool.decide_and (toY cfg s anY ≤ toY cfg s cy), decide_eq_decide.mpr h1,
    decide_eq_decide.mpr h2, decide_eq_decide.mpr h3]

theorem glyphInk_cell (cfg : Config) (s : PaperWidget) (hz : 0 < s.zoom) (aChar cx cy : Int) :
    glyphInk cfg s aChar (toX cfg s cx) (toY cfg s cy) = glyphCell cfg s aChar cx cy := by
  simp only [glyphInk, glyphCell, lineInk_cell cfg s hz]

theorem underlineInk_cell (cfg : Config) (s : PaperWidget) (hz : 0 < s.zoom) (cx cy : Int) :
    underlineInk cfg s (toX cfg s cx) (toY cfg s cy) = underlineCell cfg s cx cy := by
  simp only [underlineInk, underlineCell, lineInk_cell cfg s hz]

/-- What `processNormalChar` paints, in logical cells: with a raster `p`
present and a positive zoom, a cell is black afterwards exactly when it was
black before, or its corner pixel lies inside the raster and the cell is
covered by a glyph line or by the underline. -/
theorem processNormalChar_cells (cfg : Config) (s : PaperWidget) (aChar : Int) (p : QPixmap)
    (hp : s.pixmap = some p) (hz : 0 < s.zoom) (hc : 32 ≤ aChar) :
    ∃ t, processNormalChar cfg s aChar = some t ∧
      t.x = s.x + (if s.expanded then 2 else 1)
              + (cfg.HP82240B_CHARACTER_WIDTH + 1) * (if s.expanded then 2 else 1) ∧
      t.y = s.y ∧
      ∀ cx cy : Int, cellBlack cfg t cx cy =
        (cellBlack cfg s cx cy ||
          (p.inside (toX cfg s cx) (toY cfg s cy) &&
            (glyphCell cfg s aChar cx cy || underlineCell cfg s cx cy))) := by
  refine ⟨_, processNormalChar_addInk cfg s aChar p hp hc, rfl, rfl, ?_⟩
  intro cx cy
  simp only [cellBlack, hp, QPixmap.addInk]
  rw [← glyphInk_cell cfg s hz, ← underlineInk_cell cfg s hz]
  rfl

theorem glyphCell_iff (cfg : Config) (s : PaperWidget) (aChar cx cy : Int) :
    glyphCell cfg s aChar cx cy = true ↔
      ∃ charX charY : Nat, charX < cfg.HP82240B_CHARACTER_WIDTH ∧
        charY < cfg.HP82240B_CHARACTER_HEIGHT ∧
        columnBit (((if s.ecma94 then cfg.sFontEcma94 else cfg.sFontRoman8)
          (aChar - FIRST_PRINTABLE_CHAR)).byCol charX % 256) charY = true ∧
        s.x + (if s.expanded then 2 else 1) + charX ≤ cx ∧
        cx < s.x + (if s.expanded then 2 else 1) + charX + (if s.expanded then 2 else 1) ∧
        cy = s.y + charY := by
  simp only [glyphCell, List.any_eq_true, List.mem_range, Bool.and_eq_true, decide_eq_true_eq]
  constructor
  · rintro ⟨charX, hX, charY, hY, hb, ⟨h1, h2⟩, h3⟩
    exact ⟨charX, charY, hX, hY, hb, h1, h2, h3⟩
  · rintro ⟨charX, charY, hX, hY, hb, h1, h2, h3⟩
    exact ⟨charX, hX, charY, hY, hb, ⟨h1, h2⟩, h3⟩

/-- With underlining on, the rule of `processNormalChar` lies on the row
beneath the glyph and covers every column in which the glyph has a cell. -/
theorem underline_rule_covers_glyph (cfg : Config) (s : PaperWidget) (aChar : Int)
    (p : QPixmap) (hp : s.pixmap = some p) (hz : 0 < s.zoom) (hc : 32 ≤ aChar)
    (hu : s.underlined = true) :
    ∃ t, processNormalChar cfg s aChar = some t ∧
      ∀ cx cy : Int, glyphCell cfg s aChar cx cy = true →
        p.inside (toX cfg s cx) (toY cfg s (s.y + cfg.HP82240B_CHARACTER_HEIGHT)) = true →
        cellBlack cfg t cx (s.y + cfg.HP82240B_CHARACTER_HEIGHT) = true := by
  obtain ⟨t, ht, -, -, hcells⟩ := processNormalChar_cells cfg s aChar p hp hz hc
  refine ⟨t, ht, ?_⟩
  intro cx cy hg hin
  obtain ⟨charX, charY, hX, hY, -, h1, h2, -⟩ := (glyphCell_iff cfg s aChar cx cy).1 hg
  have hW : (charX : Int) + 1 ≤ cfg.HP82240B_CHARACTER_WIDTH := by exact_mod_cast hX
  have hcov : underlineCell cfg s cx (s.y + cfg.HP82240B_CHARACTER_HEIGHT) = true := by
    simp only [underlineCell, hu, Bool.true_and, Bool.and_eq_true, decide_eq_true_eq]
    cases hexp : s.expanded <;>
      simp only [hexp, if_true, if_false, Bool.false_eq_true] at h1 h2 ⊢ <;>
      exact ⟨⟨by omega, by omega⟩, trivial⟩
  rw [hcells, hin, hcov]
  simp

/-- With underlining off, `processNormalChar` paints no cell on the row
beneath the glyph. -/
theorem no_rule_without_underline (cfg : Config) (s : PaperWidget) (aChar : Int)
    (p : QPixmap) (hp : s.pixmap = some p) (hz : 0 < s.zoom) (hc : 32 ≤ aChar)
    (hu : s.underlined = false) :
    ∃ t, processNormalChar cfg s aChar = some t ∧
      ∀ cx : Int, cellBlack cfg t cx (s.y + cfg.HP82240B_CHARACTER_HEIGHT) =
        cellBlack cfg s cx (s.y + cfg.HP82240B_CHARACTER_HEIGHT) := by
  obtain ⟨t, ht, -, -, hcells⟩ := processNormalChar_cells cfg s aChar p hp hz hc
  refine ⟨t, ht, ?_⟩
  intro cx
  have hg : glyphCell cfg s aChar cx (s.y + cfg.HP82240B_CHARACTER_HEIGHT) = false := by
    rw [Bool.eq_false_iff]
    intro h
    obtain ⟨charX, charY, -, hY, -, -, -, h3⟩ := (glyphCell_iff cfg s aChar cx _).1 h
    have : (charY : Int) < cfg.HP82240B_CHARACTER_HEIGHT := by exact_mod_cast hY
    omega
  rw [hcells, hg]
  simp [underlineCell, hu]

/-- In normal mode the set bit `charY` of glyph column `charX` paints the cell
at column `x + 1 + charX`, row `y + charY`. -/
theorem normal_glyph_paints_bit (cfg : Config) (s : PaperWidget) (aChar : Int)
    (p : QPixmap) (hp : s.pixmap = some p) (hz : 0 < s.zoom) (hc : 32 ≤ aChar)
    (he : s.expanded = false) (charX charY : Nat)
    (hX : charX < cfg.HP82240B_CHARACTER_WIDTH) (hY : charY < cfg.HP82240B_CHARACTER_HEIGHT)
    (hb : columnBit (((if s.ecma94 then cfg.sFontEcma94 else cfg.sFontRoman8)
      (aChar - FIRST_PRINTABLE_CHAR)).byCol charX % 256) charY = true)
    (hin : p.inside (toX cfg s (s.x + 1 + charX)) (toY cfg s (s.y + charY)) = true) :
    ∃ t, processNormalChar cfg s aChar = some t ∧
      cellBlack cfg t (s.x + 1 + charX) (s.y + charY) = true := by
  obtain ⟨t, ht, -, -, hcells⟩ := processNormalChar_cells cfg s aChar p hp hz hc
  refine ⟨t, ht, ?_⟩
  have hg : glyphCell cfg s aChar (s.x + 1 + charX) (s.y + charY) = true := by
    rw [glyphCell_iff]
    refine ⟨charX, charY, hX, hY, hb, ?_, ?_, rfl⟩ <;> simp [he]
  rw [hcells, hin, hg]
  simp

/-- In expanded mode the cell at column `x + 2 + (2 * charX + 1)`, which the
2× stretch of the glyph would paint for a set bit of column `charX`, is not
painted when `charX` lies in the right half of the glyph
(`HP82240B_CHARACTER_WIDTH ≤ 2 * charX`): the lines of the glyph end at column
`x + 2 + HP82240B_CHARACTER_WIDTH`. -/
theorem expanded_glyph_misses_stretch (cfg : Config) (s : PaperWidget) (aChar : Int)
    (p : QPixmap) (hp : s.pixmap = some p) (hz : 0 < s.zoom) (hc : 32 ≤ aChar)
    (he : s.expanded = true) (charX charY : Nat)
    (hX : cfg.HP82240B_CHARACTER_WIDTH ≤ 2 * charX)
    (hY : charY < cfg.HP82240B_CHARACTER_HEIGHT)
    (hw : cellBlack cfg s (s.x + 2 + (2 * charX + 1)) (s.y + charY) = false) :
    ∃ t, processNormalChar cfg s aChar = some t ∧
      cellBlack cfg t (s.x + 2 + (2 * charX + 1)) (s.y + charY) = false := by
  obtain ⟨t, ht, -, -, hcells⟩ := processNormalChar_cells cfg s aChar p hp hz hc
  refine ⟨t, ht, ?_⟩
  have hg : glyphCell cfg s aChar (s.x + 2 + (2 * charX + 1)) (s.y + charY) = false := by
    rw [Bool.eq_false_iff]
    intro h
    obtain ⟨cX, cY, hcX, -, -, h1, h2, -⟩ := (glyphCell_iff cfg s aChar _ _).1 h
    simp only [he, if_true] at h1 h2
    have : (cX : Int) < cfg.HP82240B_CHARACTER_WIDTH := by exact_mod_cast hcX
    have : (cfg.HP82240B_CHARACTER_WIDTH : Int) ≤ 2 * charX := by exact_mod_cast hX
    omega
  have hu : underlineCell cfg s (s.x + 2 + (2 * charX + 1)) (s.y + charY) = false := by
    have : (charY : Int) < cfg.HP82240B_CHARACTER_HEIGHT := by exact_mod_cast hY
    simp only [underlineCell, Bool.and_eq_false_iff, decide_eq_false_iff_not]
    right; right
    omega
  rw [hcells, hw, hg, hu]
  simp

theorem charToInt_unsigned (cfg : Config) (b : Byte) (hs : cfg.charIsSigned = false) :
    charToInt cfg b = (b.val : Int) := by
  simp [charToInt, hs]

theorem charToInt_eq_iff (cfg : Config) (b : Byte) (k : Nat) (hk : k < 128) :
    charToInt cfg b = (k : Int) ↔ b.val = k := by
  have hlt : b.val < 256 := b.isLt
  unfold charToInt
  by_cases hs : cfg.charIsSigned = true <;> by_cases hb : 128 ≤ b.val <;>
    simp only [hs, hb, Bool.true_and, Bool.false_and, decide_True, decide_False, if_true,
      if_false, Bool.false_eq_true] <;> omega

theorem processEscape_after_escape (s : PaperWidget) (c : Int) (he : s.lastIsEscape = false) :
    ({ processEscape { s with lastIsEscape := true } c with lastIsEscape := false } : PaperWidget)
      = processEscape s c := by
  cases s
  simp only [] at he
  subst he
  simp only [processEscape, resetPrinter, selfTest, RESET_PRINTER, SELF_TEST,
    USE_EXPANDED_CHARACTERS, USE_NORMAL_CHARACTERS, START_UNDERLINING, STOP_UNDERLINING,
    USE_ECMA94, USE_ROMAN8, GRAPHICS_MAX]
  by_cases h1 : c = 255
  · simp [h1]
  by_cases h2 : c = 254
  · simp [h2]
  by_cases h3 : c = 253
  · simp [h3]
  by_cases h4 : c = 252
  · simp [h4]
  by_cases h5 : c = 251
  · simp [h5]
  by_cases h6 : c = 250
  · simp [h6]
  by_cases h7 : c = 249
  · simp [h7]
  by_cases h8 : c = 248
  · simp [h8]
  by_cases h9 : c ≤ 166
  · simp [h1, h2, h3, h4, h5, h6, h7, h8, h9]
  · simp [h1, h2, h3, h4, h5, h6, h7, h8, h9]

theorem printChar_plain (cfg : Config) (s : PaperWidget) (b : Byte) (p : QPixmap)
    (hN : Normal s) (hp : s.pixmap = some p) (hb : b ≠ 27 ∧ b ≠ 10 ∧ b ≠ 4) :
    dispatch s (charToInt cfg b) = Call.processNormalChar (charToInt cfg b) ∧
    ∃ t q, printChar cfg s b = some t ∧ t.pixmap = some q ∧ Normal t ∧
      t.y = s.y ∧ t.lineCount = s.lineCount := by
  obtain ⟨he, hg⟩ := hN
  have hg' : ¬ (0 < s.expectedGraphicsChars) := by omega
  have hv : ∀ k : Nat, k < 128 → b ≠ Fin.ofNat k → ¬ (charToInt cfg b = (k : Int)) := by
    intro k hk hne h
    apply hne
    have := (charToInt_eq_iff cfg b k hk).1 h
    apply Fin.ext
    simp [Fin.ofNat, this]
    omega
  have e1 : ¬ (charToInt cfg b = 10) := hv 10 (by decide) hb.2.1
  have e2 : ¬ (charToInt cfg b = 4) := hv 4 (by decide) hb.2.2
  have e3 : ¬ (charToInt cfg b = 27) := hv 27 (by decide) hb.1
  have hd : dispatch s (charToInt cfg b) = Call.processNormalChar (charToInt cfg b) := by
    simp [dispatch, hg', he, END_OF_LINE, LINE_FEED, ESCAPE_CHAR, e1, e2, e3]
  refine ⟨hd, ?_⟩
  unfold printChar
  simp only [hd]
  by_cases hc : 32 ≤ charToInt cfg b
  · obtain ⟨q, hq⟩ := processNormalChar_of_pixmap cfg s _ p hp hc
    rw [hq]
    exact ⟨_, q, rfl, rfl, ⟨rfl, hg⟩, rfl, rfl⟩
  · rw [processNormalChar_ignored cfg s _ (by omega)]
    exact ⟨_, p, rfl, hp, ⟨rfl, hg⟩, rfl, rfl⟩

/-- Text without the control bytes 27, 10 and 4, printed in the normal state
with a raster present: every byte is handed to `processNormalChar` as the `int`
it is read as, and the glyphs drawn are those of the bytes read as 32 or more,
in order, each at font index `c - 32`. -/
theorem print_plain_text (cfg : Config) (S : List Byte) (s : PaperWidget) (p : QPixmap)
    (hN : Normal s) (hp : s.pixmap = some p) (hS : ∀ b ∈ S, b ≠ 27 ∧ b ≠ 10 ∧ b ≠ 4) :
    (∃ t q, print cfg s S = some t ∧ t.pixmap = some q ∧ Normal t ∧
      t.y = s.y ∧ t.lineCount = s.lineCount) ∧
    printCalls cfg s S = S.map (fun b => Call.processNormalChar (charToInt cfg b)) ∧
    glyphsDrawn cfg s S = (S.map (charToInt cfg)).filterMap
      (fun c => if c ≥ FIRST_PRINTABLE_CHAR then some (c - FIRST_PRINTABLE_CHAR) else none) := by
  have key : (∃ t q, print cfg s S = some t ∧ t.pixmap = some q ∧ Normal t ∧
      t.y = s.y ∧ t.lineCount = s.lineCount) ∧
      printCalls cfg s S = S.map (fun b => Call.processNormalChar (charToInt cfg b)) := by
    induction S generalizing s p with
    | nil => exact ⟨⟨s, p, rfl, hp, hN, rfl, rfl⟩, rfl⟩
    | cons b S ih =>
      obtain ⟨hd, t, q, ht, hq, hNt, hy, hl⟩ :=
        printChar_plain cfg s b p hN hp (hS b (List.mem_cons_self _ _))
      obtain ⟨⟨u, r, hu, hr, hNu, hyu, hlu⟩, hcalls⟩ :=
        ih t q hNt hq (fun x hx => hS x (List.mem_cons_of_mem _ hx))
      refine ⟨⟨u, r, ?_, hr, hNu, by rw [hyu, hy], by rw [hlu, hl]⟩, ?_⟩
      · simp only [print, ht, hu]
      · simp only [printCalls, ht, hd, hcalls, List.map_cons]
  refine ⟨key.1, key.2, ?_⟩
  unfold glyphsDrawn
  rw [key.2, List.filterMap_map, List.filterMap_map]
  rfl

theorem print_graphics_run (cfg : Config) (D : List Byte) (s : PaperWidget) (p : QPixmap)
    (hp : s.pixmap = some p) (he : s.lastIsEscape = false)
    (hn : s.expectedGraphicsChars = D.length) :
    (∃ q, print cfg s D =
      some { s with x := s.x + D.length, expectedGraphicsChars := 0, pixmap := some q }) ∧
    printCalls cfg s D = D.map (fun d => Call.processGraphics (charToInt cfg d)) := by
  induction D generalizing s p with
  | nil =>
    refine ⟨⟨p, ?_⟩, rfl⟩
    cases s
    simp only [List.length_nil, Nat.cast_zero] at hp hn
    subst hp hn
    simp [print]
  | cons d D ih =>
    have hpos : 0 < s.expectedGraphicsChars := by
      rw [hn]; simp only [List.length_cons]; push_cast; omega
    have hd : dispatch s (charToInt cfg d) = Call.processGraphics (charToInt cfg d) := by
      simp [dispatch, hpos]
    obtain ⟨q, hq⟩ := processGraphics_of_pixmap cfg
      { s with expectedGraphicsChars := s.expectedGraphicsChars - 1 } (charToInt cfg d) p hp
    have hstep : printChar cfg s d =
        some { s with expectedGraphicsChars := s.expectedGraphicsChars - 1, x := s.x + 1,
                      pixmap := some q, lastIsEscape := false } := by
      unfold printChar
      simp only [hd, hq]
      rfl
    obtain ⟨⟨r, hr⟩, hcalls⟩ := ih
      { s with expectedGraphicsChars := s.expectedGraphicsChars - 1, x := s.x + 1,
               pixmap := some q, lastIsEscape := false } q rfl rfl
      (by show s.expectedGraphicsChars - 1 = _
          rw [hn]; simp only [List.length_cons]; push_cast; omega)
    refine ⟨⟨r, ?_⟩, ?_⟩
    · simp only [print, hstep, hr]
      have hx : s.x + 1 + (D.length : Int) = s.x + ((d :: D).length : Int) := by
        simp only [List.length_cons]; push_cast; omega
      cases s
      simp only [] at he hx ⊢
      subst he
      rw [hx]
    · simp only [printCalls, hstep, hd, hcalls, List.map_cons]

/-- A graphics block whose count byte `n` is read unchanged (an unsigned `char`,
or a count below 128), printed in the normal state with a raster present: the
`n` bytes that follow are each handed to `processGraphics`, no other branch is
taken for them, the cursor moves `n` columns to the right and the decoder ends
with no graphics byte expected and no escape pending; nothing else changes but
the raster. -/
theorem print_graphics_block (cfg : Config) (s : PaperWidget) (n : Byte) (D : List Byte)
    (p : QPixmap) (hN : Normal s) (hp : s.pixmap = some p)
    (hc : charToInt cfg n = (n.val : Int)) (hn : n.val ≤ 166) (hD : D.length = n.val) :
    (∃ q, print cfg s (27 :: n :: D) =
      some { s with x := s.x + n.val, expectedGraphicsChars := 0, pixmap := some q }) ∧
    printCalls cfg s (27 :: n :: D) =
      Call.escapeFound :: Call.processEscape (n.val : Int) ::
        D.map (fun d => Call.processGraphics (charToInt cfg d)) := by
  obtain ⟨he, hg⟩ := hN
  have h27 : charToInt cfg 27 = 27 := charToInt_small cfg 27 (by decide)
  have hg' : ¬ (0 < s.expectedGraphicsChars) := by omega
  have hn' : (n.val : Int) ≤ 166 := by exact_mod_cast hn
  have hd1 : dispatch s (charToInt cfg 27) = Call.escapeFound := by
    simp [dispatch, h27, he, hg', END_OF_LINE, LINE_FEED, ESCAPE_CHAR]
  have h1 : printChar cfg s 27 = some { s with lastIsEscape := true } := by
    simp [printChar, dispatch, h27, he, hg', END_OF_LINE, LINE_FEED, ESCAPE_CHAR]
  have hd2 : dispatch { s with lastIsEscape := true } (charToInt cfg n) =
      Call.processEscape (n.val : Int) := by
    simp [dispatch, hc, hg']
  have hpe : processEscape s (n.val : Int) = { s with expectedGraphicsChars := (n.val : Int) } := by
    have e1 : ¬ ((n.val : Int) = 255) := by omega
    have e2 : ¬ ((n.val : Int) = 254) := by omega
    have e3 : ¬ ((n.val : Int) = 253) := by omega
    have e4 : ¬ ((n.val : Int) = 252) := by omega
    have e5 : ¬ ((n.val : Int) = 251) := by omega
    have e6 : ¬ ((n.val : Int) = 250) := by omega
    have e7 : ¬ ((n.val : Int) = 249) := by omega
    have e8 : ¬ ((n.val : Int) = 248) := by omega
    simp [processEscape, RESET_PRINTER, SELF_TEST, USE_EXPANDED_CHARACTERS,
      USE_NORMAL_CHARACTERS, START_UNDERLINING, STOP_UNDERLINING, USE_ECMA94, USE_ROMAN8,
      GRAPHICS_MAX, e1, e2, e3, e4, e5, e6, e7, e8, hn']
  have h2 : printChar cfg { s with lastIsEscape := true } n =
      some { s with expectedGraphicsChars := (n.val : Int) } := by
    unfold printChar
    simp only [hd2]
    rw [processEscape_after_escape s _ he, hpe]
  obtain ⟨⟨q, hq⟩, hcalls⟩ := print_graphics_run cfg D
    { s with expectedGraphicsChars := (n.val : Int) } p hp he
    (by show (n.val : Int) = _; rw [hD])
  refine ⟨⟨q, ?_⟩, ?_⟩
  · simp only [print, h1, h2, hq, hD]
  · simp only [printCalls, h1, h2, hd1, hd2, hcalls]

end PaperWidget

namespace PaperWidget

theorem blank_dims (w h : Int) (hw : 0 < w) (hh : 0 < h) :
    (QPixmap.blank w h).width = w ∧ (QPixmap.blank w h).height = h := by
  unfold QPixmap.blank
  rw [if_pos ⟨hw, hh⟩]
  exact ⟨rfl, rfl⟩

/-- The effect of `lineFeed` with a raster present. -/
theorem lineFeed_spec (cfg : Config) (s : PaperWidget) (p : QPixmap) (hp : s.pixmap = some p) :
    ∃ t q, lineFeed cfg s = some t ∧ t.pixmap = some q ∧ t.x = 0 ∧
      t.y = (if s.lineCount ≥ cfg.MAX_LINES then s.y - cfg.LINE_HEIGHT else s.y)
              + cfg.LINE_HEIGHT ∧
      t.lineCount = (if s.lineCount ≥ cfg.MAX_LINES then s.lineCount - 1 else s.lineCount) + 1 ∧
      t.zoom = s.zoom ∧ t.xOffset = s.xOffset ∧
      t.sizeWidth = s.sizeWidth ∧ t.sizeHeight = s.sizeHeight ∧
      t.lastIsEscape = s.lastIsEscape ∧ t.expectedGraphicsChars = s.expectedGraphicsChars ∧
      t.ecma94 = s.ecma94 ∧ t.underlined = s.underlined ∧ t.expanded = s.expanded ∧
      (0 < p.width → 0 < p.height →
        q.width = p.width ∧ p.height ≤ q.height ∧
        toY cfg t (t.y + cfg.LINE_HEIGHT) ≤ q.height ∧
        (q.height = p.height ∨
          (q.height = toY cfg t (t.y + cfg.LINE_HEIGHT) ∧
            p.height ≤ toY cfg t (t.y + cfg.LINE_HEIGHT)))) := by
  by_cases hl : s.lineCount ≥ cfg.MAX_LINES
  · unfold lineFeed
    rw [if_pos hl, removeFirstLine_of_pixmap cfg s p hp]
    simp only [if_pos hl]
    split
    · rename_i hg
      refine ⟨_, _, rfl, rfl, rfl, rfl, rfl, rfl, rfl, rfl, rfl, rfl, rfl, rfl, rfl, rfl, ?_⟩
      intro hw hh
      obtain ⟨b1, b2⟩ := blank_dims p.width p.height hw hh
      have hg' : (QPixmap.blank p.width p.height).height ≤
          toY cfg s (s.y - cfg.LINE_HEIGHT + cfg.LINE_HEIGHT + cfg.LINE_HEIGHT) := hg
      rw [b2] at hg'
      obtain ⟨c1, c2⟩ := blank_dims (QPixmap.blank p.width p.height).width
        (toY cfg s (s.y - cfg.LINE_HEIGHT + cfg.LINE_HEIGHT + cfg.LINE_HEIGHT))
        (by rw [b1]; exact hw) (by omega)
      refine ⟨?_, ?_, ?_, Or.inr ⟨?_, ?_⟩⟩
      · show (QPixmap.blank (QPixmap.blank p.width p.height).width
          (toY cfg s (s.y - cfg.LINE_HEIGHT + cfg.LINE_HEIGHT + cfg.LINE_HEIGHT))).width = p.width
        rw [c1, b1]
      · show p.height ≤ (QPixmap.blank (QPixmap.blank p.width p.height).width
          (toY cfg s (s.y - cfg.LINE_HEIGHT + cfg.LINE_HEIGHT + cfg.LINE_HEIGHT))).height
        rw [c2]; exact hg'
      · show toY cfg s (s.y - cfg.LINE_HEIGHT + cfg.LINE_HEIGHT + cfg.LINE_HEIGHT) ≤
          (QPixmap.blank (QPixmap.blank p.width p.height).width
          (toY cfg s (s.y - cfg.LINE_HEIGHT + cfg.LINE_HEIGHT + cfg.LINE_HEIGHT))).height
        rw [c2]
      · show (QPixmap.blank (QPixmap.blank p.width p.height).width
          (toY cfg s (s.y - cfg.LINE_HEIGHT + cfg.LINE_HEIGHT + cfg.LINE_HEIGHT))).height =
          toY cfg s (s.y - cfg.LINE_HEIGHT + cfg.LINE_HEIGHT + cfg.LINE_HEIGHT)
        exact c2
      · exact hg'
    · rename_i hg
      refine ⟨_, _, rfl, rfl, rfl, rfl, rfl, rfl, rfl, rfl, rfl, rfl, rfl, rfl, rfl, rfl, ?_⟩
      intro hw hh
      obtain ⟨b1, b2⟩ := blank_dims p.width p.height hw hh
      have hg' : ¬ ((QPixmap.blank p.width p.height).height ≤
          toY cfg s (s.y - cfg.LINE_HEIGHT + cfg.LINE_HEIGHT + cfg.LINE_HEIGHT)) := hg
      rw [b2] at hg'
      refine ⟨b1, ?_, ?_, Or.inl b2⟩
      · show p.height ≤ (QPixmap.blank p.width p.height).height
        rw [b2]
      · show toY cfg s (s.y - cfg.LINE_HEIGHT + cfg.LINE_HEIGHT + cfg.LINE_HEIGHT) ≤
          (QPixmap.blank p.width p.height).height
        rw [b2]; omega
  · unfold lineFeed
    rw [if_neg hl]
    simp only [hp, if_neg hl]
    split
    · rename_i hg
      refine ⟨_, _, rfl, rfl, rfl, rfl, rfl, rfl, rfl, rfl, rfl, rfl, rfl, rfl, rfl, rfl, ?_⟩
      intro hw hh
      have hg' : p.height ≤ toY cfg s (s.y + cfg.LINE_HEIGHT + cfg.LINE_HEIGHT) := hg
      obtain ⟨c1, c2⟩ := blank_dims p.width
        (toY cfg s (s.y + cfg.LINE_HEIGHT + cfg.LINE_HEIGHT)) hw (by omega)
      refine ⟨c1, ?_, ?_, Or.inr ⟨c2, hg'⟩⟩
      · show p.height ≤ (QPixmap.blank p.width
          (toY cfg s (s.y + cfg.LINE_HEIGHT + cfg.LINE_HEIGHT))).height
        rw [c2]; exact hg'
      · show toY cfg s (s.y + cfg.LINE_HEIGHT + cfg.LINE_HEIGHT) ≤ (QPixmap.blank p.width
          (toY cfg s (s.y + cfg.LINE_HEIGHT + cfg.LINE_HEIGHT))).height
        rw [c2]
    · rename_i hg
      refine ⟨_, _, rfl, rfl, rfl, rfl, rfl, rfl, rfl, rfl, rfl, rfl, rfl, rfl, rfl, rfl, ?_⟩
      intro hw hh
      have hg' : ¬ (p.height ≤ toY cfg s (s.y + cfg.LINE_HEIGHT + cfg.LINE_HEIGHT)) := hg
      refine ⟨rfl, le_refl _, ?_, Or.inl rfl⟩
      show toY cfg s (s.y + cfg.LINE_HEIGHT + cfg.LINE_HEIGHT) ≤ p.height
      omega

end PaperWidget

namespace PaperWidget

theorem keeps_refl (cfg : Config) (s : PaperWidget) : Keeps cfg s s :=
  ⟨rfl, rfl, rfl, rfl, rfl, fun h => h, fun p hp => ⟨p, hp, fun _ => ⟨rfl, le_refl _⟩⟩⟩

theorem keeps_trans (cfg : Config) (s t u : PaperWidget) (h1 : Keeps cfg s t)
    (h2 : Keeps cfg t u) : Keeps cfg s u := by
  obtain ⟨a1, a2, a3, a4, a5, a6, a7⟩ := h1
  obtain ⟨b1, b2, b3, b4, b5, b6, b7⟩ := h2
  refine ⟨b1.trans a1, b2.trans a2, b3.trans a3, b4.trans a4, b5.trans a5,
    fun h => b6 (a6 h), ?_⟩
  intro p hp
  obtain ⟨q, hq, hq'⟩ := a7 p hp
  obtain ⟨r, hr, hr'⟩ := b7 q hq
  refine ⟨r, hr, ?_⟩
  intro hv
  obtain ⟨c1, c2⟩ := hq' hv
  obtain ⟨d1, d2⟩ := hr' ⟨by rw [c1]; exact hv.1, by omega⟩
  exact ⟨d1.trans c1, le_trans c2 d2⟩

theorem processEscape_frame (s : PaperWidget) (c : Int) :
    (processEscape s c).x = s.x ∧ (processEscape s c).y = s.y ∧
    (processEscape s c).xOffset = s.xOffset ∧ (processEscape s c).lineCount = s.lineCount ∧
    (processEscape s c).zoom = s.zoom ∧ (processEscape s c).pixmap = s.pixmap ∧
    (processEscape s c).printedText = s.printedText ∧
    (processEscape s c).sizeWidth = s.sizeWidth ∧
    (processEscape s c).sizeHeight = s.sizeHeight := by
  unfold processEscape resetPrinter selfTest
  split_ifs <;> exact ⟨rfl, rfl, rfl, rfl, rfl, rfl, rfl, rfl, rfl⟩

theorem foldlM_repaint_size {α : Type} (f : PaperWidget → α → Option PaperWidget)
    (hf : ∀ (s : PaperWidget) (a : α) (p : QPixmap), s.pixmap = some p →
      ∃ q, f s a = some { s with pixmap := some q } ∧ q.width = p.width ∧ q.height = p.height)
    (l : List α) (s : PaperWidget) (p : QPixmap) (hp : s.pixmap = some p) :
    ∃ q, l.foldlM f s = some { s with pixmap := some q } ∧
      q.width = p.width ∧ q.height = p.height := by
  induction l generalizing s p with
  | nil => exact ⟨p, by cases s; simp_all, rfl, rfl⟩
  | cons a l ih =>
    obtain ⟨q, hq, hw, hh⟩ := hf s a p hp
    obtain ⟨r, hr, hw', hh'⟩ := ih { s with pixmap := some q } q rfl
    exact ⟨r, by simp [List.foldlM_cons, hq, hr], hw'.trans hw, hh'.trans hh⟩

theorem processGraphics_size (cfg : Config) (s : PaperWidget) (aChar : Int) (p : QPixmap)
    (hp : s.pixmap = some p) :
    ∃ q, processGraphics cfg s aChar = some { s with x := s.x + 1, pixmap := some q } ∧
      q.width = p.width ∧ q.height = p.height := by
  obtain ⟨q, hq, hw, hh⟩ := foldlM_repaint_size (graphicsRow cfg (toUnsignedChar aChar))
    (fun t a r hr => by
      unfold graphicsRow
      split
      · exact ⟨r.fillRect _ _ _ _, drawPoint_of_pixmap cfg t r _ _ hr, rfl, rfl⟩
      · exact ⟨r, by cases t; simp_all, rfl, rfl⟩)
    (List.range cfg.HP82240B_CHARACTER_HEIGHT) s p hp
  exact ⟨q, by simp [processGraphics, hq], hw, hh⟩

/-- One step of `print` with a raster present: it returns a state, keeps what
`Keeps` lists, and leaves no escape pending while graphics bytes are expected. -/
theorem printChar_keeps (cfg : Config) (s : PaperWidget) (b : Byte) (p : QPixmap)
    (hp : s.pixmap = some p) :
    ∃ t, printChar cfg s b = some t ∧ Keeps cfg s t ∧
      (0 < t.expectedGraphicsChars → t.lastIsEscape = false) := by
  unfold printChar dispatch
  by_cases hg : s.expectedGraphicsChars > 0
  · simp only [if_pos hg]
    obtain ⟨q, hq, hw, hh⟩ := processGraphics_size cfg
      { s with expectedGraphicsChars := s.expectedGraphicsChars - 1 } (charToInt cfg b) p hp
    rw [hq]
    refine ⟨_, rfl, ⟨rfl, rfl, rfl, rfl, rfl, fun h => h, ?_⟩, fun _ => rfl⟩
    intro p' hp'
    rw [hp] at hp'
    cases hp'
    exact ⟨q, rfl, fun _ => ⟨hw, le_of_eq hh.symm⟩⟩
  simp only [if_neg hg]
  by_cases he : s.lastIsEscape = true
  · simp only [if_pos he]
    obtain ⟨-, f2, f3, f4, f5, f6, -, f8, f9⟩ := processEscape_frame s (charToInt cfg b)
    refine ⟨_, rfl, ⟨f5, f3, f8, f9, ?_, ?_, ?_⟩, fun _ => rfl⟩
    · show (processEscape s (charToInt cfg b)).y
        - (processEscape s (charToInt cfg b)).lineCount * cfg.LINE_HEIGHT = _
      rw [f2, f4]
    · intro h
      show 0 ≤ (processEscape s (charToInt cfg b)).lineCount ∧
        (processEscape s (charToInt cfg b)).lineCount ≤ cfg.MAX_LINES
      rw [f4]; exact h
    · intro p' hp'
      exact ⟨p', by show (processEscape s (charToInt cfg b)).pixmap = _; rw [f6]; exact hp',
        fun _ => ⟨rfl, le_refl _⟩⟩
  simp only [if_neg he]
  have hfeed : ∃ t, (lineFeed cfg s).map (fun t => { t with lastIsEscape := false }) = some t ∧
      Keeps cfg s t ∧ (0 < t.expectedGraphicsChars → t.lastIsEscape = false) := by
    obtain ⟨t, q, h1, h2, -, h4, h5, h6, h7, h8, h9, -, -, -, -, -, h15⟩ :=
      lineFeed_spec cfg s p hp
    rw [h1]
    refine ⟨_, rfl, ⟨h6, h7, h8, h9, ?_, ?_, ?_⟩, fun _ => rfl⟩
    · show t.y - t.lineCount * cfg.LINE_HEIGHT = _
      rw [h4, h5]
      split <;> ring
    · intro h
      show 0 ≤ t.lineCount ∧ t.lineCount ≤ cfg.MAX_LINES
      rw [h5]
      split <;> omega
    · intro p' hp'
      rw [hp] at hp'
      cases hp'
      exact ⟨q, h2, fun hv => ⟨(h15 hv.1 hv.2).1, (h15 hv.1 hv.2).2.1⟩⟩
  by_cases h10 : charToInt cfg b = END_OF_LINE
  · simp only [if_pos h10, endOfLine]
    exact hfeed
  simp only [if_neg h10]
  by_cases h4 : charToInt cfg b = LINE_FEED
  · simp only [if_pos h4]
    exact hfeed
  simp only [if_neg h4]
  by_cases h27 : charToInt cfg b = ESCAPE_CHAR
  · simp only [if_pos h27]
    refine ⟨_, rfl, ⟨rfl, rfl, rfl, rfl, rfl, fun h => h, fun p' hp' =>
      ⟨p', hp', fun _ => ⟨rfl, le_refl _⟩⟩⟩, ?_⟩
    intro h
    exact absurd h hg
  simp only [if_neg h27]
  by_cases hc : 32 ≤ charToInt cfg b
  · rw [processNormalChar_addInk cfg s _ p hp hc]
    refine ⟨_, rfl, ⟨rfl, rfl, rfl, rfl, rfl, fun h => h, ?_⟩, fun _ => rfl⟩
    intro p' hp'
    rw [hp] at hp'
    cases hp'
    exact ⟨_, rfl, fun _ => ⟨rfl, le_refl _⟩⟩
  · rw [processNormalChar_ignored cfg s _ (by omega)]
    refine ⟨_, rfl, ⟨rfl, rfl, rfl, rfl, rfl, fun h => h, fun p' hp' =>
      ⟨p', hp', fun _ => ⟨rfl, le_refl _⟩⟩⟩, fun _ => rfl⟩

/-- With a raster present `print` returns a state for every byte sequence, and
keeps what `Keeps` lists. -/
theorem print_keeps (cfg : Config) (S : List Byte) (s : PaperWidget) (p : QPixmap)
    (hp : s.pixmap = some p) :
    ∃ t, print cfg s S = some t ∧ Keeps cfg s t := by
  induction S generalizing s p with
  | nil => exact ⟨s, rfl, keeps_refl cfg s⟩
  | cons b S ih =>
    obtain ⟨t, ht, hk, -⟩ := printChar_keeps cfg s b p hp
    obtain ⟨q, hq, -⟩ := hk.2.2.2.2.2.2 p hp
    obtain ⟨u, hu, hk'⟩ := ih t q hq
    exact ⟨u, by simp only [print, ht, hu], keeps_trans cfg s t u hk hk'⟩

end PaperWidget

namespace PaperWidget

/-- Claim C11 fails on the code.  On the empty session at the origin, with
glyphs 5 columns wide, printing `A` (65) moves the cursor to x = 7 and not to
x = 0 + (5 + 1) = 6, and column 0 of the glyph (rows 1..6 set) is painted at
logical column 1, not at column 0 = old x + 0.  With expanded on the cursor
moves to x = 14, not 12. -/
theorem glyph_advance_is_not_width_plus_one :
    (printChar (sampleConfig 3 false) sampleSession 65).map
        (fun t => (t.x, t.y, cellBlack (sampleConfig 3 false) t 0 1,
          cellBlack (sampleConfig 3 false) t 1 1))
      = some (7, 0, false, true) ∧
    (printChar (sampleConfig 3 false) sampleSession 65).map (fun t => t.x)
      ≠ some (sampleSession.x + ((sampleConfig 3 false).HP82240B_CHARACTER_WIDTH + 1)) ∧
    (printChar (sampleConfig 3 false) { sampleSession with expanded := true } 65).map
        (fun t => t.x) = some 14 ∧
    (printChar (sampleConfig 3 false) { sampleSession with expanded := true } 65).map
        (fun t => t.x)
      ≠ some (sampleSession.x + 2 * ((sampleConfig 3 false).HP82240B_CHARACTER_WIDTH + 1)) := by
  decide

/-- Claim C11 as amended.  In the normal state with a raster present and a
positive zoom, printing one byte that is read as 32 or more increases x by
exactly `(HP82240B_CHARACTER_WIDTH + 2) * e`, where `e` is 1 with expanded off
and 2 with expanded on, and leaves y unchanged.  A cell is black afterwards
exactly when it was black before, or its corner lies inside the raster and it
is covered by the glyph or by the underline; the glyph covers, for every set
bit `charY` of its column `charX`, the `e` cells from logical column
`old x + e + charX` on, on row `y + charY`. -/
theorem glyph_advances_cell_width (cfg : Config) (s : PaperWidget) (b : Byte) (p : QPixmap)
    (hN : Normal s) (hp : s.pixmap = some p) (hz : 0 < s.zoom)
    (hb : 32 ≤ charToInt cfg b) :
    ∃ t, printChar cfg s b = some t ∧
      t.x = s.x + (cfg.HP82240B_CHARACTER_WIDTH + 2) * (if s.expanded then 2 else 1) ∧
      t.y = s.y ∧
      (∀ cx cy : Int, cellBlack cfg t cx cy =
        (cellBlack cfg s cx cy ||
          (p.inside (toX cfg s cx) (toY cfg s cy) &&
            (glyphCell cfg s (charToInt cfg b) cx cy || underlineCell cfg s cx cy)))) ∧
      (∀ cx cy : Int, glyphCell cfg s (charToInt cfg b) cx cy = true ↔
        ∃ charX charY : Nat, charX < cfg.HP82240B_CHARACTER_WIDTH ∧
          charY < cfg.HP82240B_CHARACTER_HEIGHT ∧
          columnBit (((if s.ecma94 then cfg.sFontEcma94 else cfg.sFontRoman8)
            (charToInt cfg b - FIRST_PRINTABLE_CHAR)).byCol charX % 256) charY = true ∧
          s.x + (if s.expanded then 2 else 1) + charX ≤ cx ∧
          cx < s.x + (if s.expanded then 2 else 1) + charX + (if s.expanded then 2 else 1) ∧
          cy = s.y + charY) := by
  obtain ⟨he, hg⟩ := hN
  have hg' : ¬ (s.expectedGraphicsChars > 0) := by omega
  have hd : dispatch s (charToInt cfg b) = Call.processNormalChar (charToInt cfg b) := by
    have e1 : ¬ (charToInt cfg b = 10) := by omega
    have e2 : ¬ (charToInt cfg b = 4) := by omega
    have e3 : ¬ (charToInt cfg b = 27) := by omega
    simp [dispatch, hg', he, END_OF_LINE, LINE_FEED, ESCAPE_CHAR, e1, e2, e3]
  obtain ⟨t, ht, hx, hy, hcells⟩ := processNormalChar_cells cfg s (charToInt cfg b) p hp hz hb
  refine ⟨{ t with lastIsEscape := false }, ?_, ?_, hy, ?_,
    fun cx cy => glyphCell_iff cfg s (charToInt cfg b) cx cy⟩
  · unfold printChar
    simp only [hd, ht]
    rfl
  · show t.x = _
    rw [hx]
    split <;> ring
  · intro cx cy
    exact hcells cx cy

theorem glyph_advances_cell_width_witness :
    Normal sampleSession ∧ sampleSession.pixmap = some (QPixmap.blank 186 260) ∧
    0 < sampleSession.zoom ∧ 32 ≤ charToInt (sampleConfig 3 false) 65 ∧
    ∃ t, printChar (sampleConfig 3 false) sampleSession 65 = some t ∧
      t.x = sampleSession.x + ((sampleConfig 3 false).HP82240B_CHARACTER_WIDTH + 2)
              * (if sampleSession.expanded then 2 else 1) ∧
      t.y = sampleSession.y ∧
      (∀ cx cy : Int, cellBlack (sampleConfig 3 false) t cx cy =
        (cellBlack (sampleConfig 3 false) sampleSession cx cy ||
          ((QPixmap.blank 186 260).inside (toX (sampleConfig 3 false) sampleSession cx)
              (toY (sampleConfig 3 false) sampleSession cy) &&
            (glyphCell (sampleConfig 3 false) sampleSession
                (charToInt (sampleConfig 3 false) 65) cx cy ||
              underlineCell (sampleConfig 3 false) sampleSession cx cy)))) ∧
      (∀ cx cy : Int, glyphCell (sampleConfig 3 false) sampleSession
          (charToInt (sampleConfig 3 false) 65) cx cy = true ↔
        ∃ charX charY : Nat, charX < (sampleConfig 3 false).HP82240B_CHARACTER_WIDTH ∧
          charY < (sampleConfig 3 false).HP82240B_CHARACTER_HEIGHT ∧
          columnBit (((if sampleSession.ecma94 then (sampleConfig 3 false).sFontEcma94
              else (sampleConfig 3 false).sFontRoman8)
            (charToInt (sampleConfig 3 false) 65 - FIRST_PRINTABLE_CHAR)).byCol charX % 256)
            charY = true ∧
          sampleSession.x + (if sampleSession.expanded then 2 else 1) + charX ≤ cx ∧
          cx < sampleSession.x + (if sampleSession.expanded then 2 else 1) + charX
                + (if sampleSession.expanded then 2 else 1) ∧
          cy = sampleSession.y + charY) :=
  ⟨by decide, rfl, by decide, by decide,
    glyph_advances_cell_width (sampleConfig 3 false) sampleSession 65 (QPixmap.blank 186 260)
      (by decide) rfl (by decide) (by decide)⟩

/-- The unassigned control bytes.  In the normal state a byte below 32 other
than 4, 10 and 27 leaves the whole state unchanged, raster or no raster.  The
branch taken by `print` is a function of the state and the byte, and with a
raster present the step returns a state for every byte in every state. -/
theorem unassigned_control_bytes_ignored (cfg : Config) (s : PaperWidget) (b : Byte)
    (hN : Normal s) (hb : b.val < 32) (h4 : b ≠ 4) (h10 : b ≠ 10) (h27 : b ≠ 27) :
    printChar cfg s b = some s ∧ print cfg s [b] = some s ∧
    dispatch s (charToInt cfg b) = Call.processNormalChar (b.val : Int) ∧
    ∀ (u : PaperWidget) (c : Byte) (p : QPixmap), u.pixmap = some p →
      ∃ t, printChar cfg u c = some t := by
  obtain ⟨he, hg⟩ := hN
  have hg' : ¬ (s.expectedGraphicsChars > 0) := by omega
  have hc : charToInt cfg b = (b.val : Int) := charToInt_small cfg b (by omega)
  have hv : ∀ k : Nat, k < 256 → b ≠ Fin.ofNat k → ¬ ((b.val : Int) = (k : Int)) := by
    intro k hk hne h
    apply hne
    apply Fin.ext
    have : b.val = k := by exact_mod_cast h
    simp [Fin.ofNat, this]
    omega
  have e1 : ¬ ((b.val : Int) = 10) := hv 10 (by decide) h10
  have e2 : ¬ ((b.val : Int) = 4) := hv 4 (by decide) h4
  have e3 : ¬ ((b.val : Int) = 27) := hv 27 (by decide) h27
  have hd : dispatch s (charToInt cfg b) = Call.processNormalChar (b.val : Int) := by
    simp [dispatch, hc, hg', he, END_OF_LINE, LINE_FEED, ESCAPE_CHAR, e1, e2, e3]
  have hlt : (b.val : Int) < 32 := by exact_mod_cast hb
  have hp : printChar cfg s b = some s := by
    unfold printChar
    simp only [hd, processNormalChar_ignored cfg s _ hlt]
    cases s
    simp only [] at he
    subst he
    rfl
  refine ⟨hp, by simp only [print, hp], hd, ?_⟩
  intro u c p hu
  obtain ⟨t, ht, -⟩ := printChar_keeps cfg u c p hu
  exact ⟨t, ht⟩

theorem unassigned_control_bytes_ignored_witness :
    Normal sampleSession ∧ (7 : Byte).val < 32 ∧ (7 : Byte) ≠ 4 ∧ (7 : Byte) ≠ 10 ∧
    (7 : Byte) ≠ 27 ∧
    printChar (sampleConfig 3 true) sampleSession 7 = some sampleSession ∧
    print (sampleConfig 3 true) sampleSession [7] = some sampleSession ∧
    dispatch sampleSession (charToInt (sampleConfig 3 true) 7)
      = Call.processNormalChar ((7 : Byte).val : Int) ∧
    ∀ (u : PaperWidget) (c : Byte) (p : QPixmap), u.pixmap = some p →
      ∃ t, printChar (sampleConfig 3 true) u c = some t :=
  ⟨by decide, by decide, by decide, by decide, by decide,
    unassigned_control_bytes_ignored (sampleConfig 3 true) sampleSession 7
      (by decide) (by decide) (by decide) (by decide) (by decide)⟩

/-- The first half of `buildPixmap`: the state handed to `print`. -/
theorem buildPixmap_eq (cfg : Config) (s : PaperWidget) :
    ∃ s0 q, buildPixmap cfg s = print cfg s0 s.printedText ∧ s0.pixmap = some q ∧
      s0.x = 0 ∧ s0.y = 0 ∧ s0.lineCount = 0 ∧
      s0.zoom = max 1 (s.sizeWidth.tdiv (cfg.PAPER_WIDTH + cfg.PAPER_HORIZONTAL_MARGIN)) ∧
      q = QPixmap.blank s.sizeWidth (max s.sizeHeight
        (s.lineCount * cfg.LINE_HEIGHT
          * max 1 (s.sizeWidth.tdiv (cfg.PAPER_WIDTH + cfg.PAPER_HORIZONTAL_MARGIN)))) ∧
      s0.printedText = s.printedText ∧ s0.lastIsEscape = s.lastIsEscape ∧
      s0.expectedGraphicsChars = s.expectedGraphicsChars :=
  ⟨_, _, rfl, rfl, rfl, rfl, rfl, rfl, rfl, rfl, rfl, rfl⟩

/-- Claim C13.  For a display width `w ≥ 0` (and a positive base width
`PAPER_WIDTH + PAPER_HORIZONTAL_MARGIN`) `buildPixmap` returns, its zoom is
`max 1 (w / (PAPER_WIDTH + PAPER_HORIZONTAL_MARGIN))` with integer division and
so at least 1, and the replay of the history starts from a state with that
zoom, the cursor at (0, 0) and `lineCount` 0. -/
theorem buildPixmap_sets_zoom (cfg : Config) (s : PaperWidget) (hw : 0 ≤ s.sizeWidth)
    (hd : 0 < cfg.PAPER_WIDTH + cfg.PAPER_HORIZONTAL_MARGIN) :
    ∃ s0 t, buildPixmap cfg s = print cfg s0 s.printedText ∧
      s0.x = 0 ∧ s0.y = 0 ∧ s0.lineCount = 0 ∧
      s0.zoom = max 1 (s.sizeWidth / (cfg.PAPER_WIDTH + cfg.PAPER_HORIZONTAL_MARGIN)) ∧
      buildPixmap cfg s = some t ∧
      t.zoom = max 1 (s.sizeWidth / (cfg.PAPER_WIDTH + cfg.PAPER_HORIZONTAL_MARGIN)) ∧
      1 ≤ t.zoom := by
  obtain ⟨s0, q, h1, h2, h3, h4, h5, h6, -⟩ := buildPixmap_eq cfg s
  rw [Int.tdiv_eq_ediv hw (le_of_lt hd)] at h6
  obtain ⟨t, ht, hk⟩ := print_keeps cfg s.printedText s0 q h2
  refine ⟨s0, t, h1, h3, h4, h5, h6, by rw [h1, ht], by rw [hk.1, h6], ?_⟩
  rw [hk.1, h6]
  exact le_max_left _ _

theorem buildPixmap_sets_zoom_witness :
    0 ≤ ({ sampleSession with sizeWidth := 400, printedText := [65, 10] } : PaperWidget).sizeWidth ∧
    0 < (sampleConfig 3 false).PAPER_WIDTH + (sampleConfig 3 false).PAPER_HORIZONTAL_MARGIN ∧
    ∃ s0 t, buildPixmap (sampleConfig 3 false)
        { sampleSession with sizeWidth := 400, printedText := [65, 10] }
        = print (sampleConfig 3 false) s0
            ({ sampleSession with sizeWidth := 400, printedText := [65, 10] } : PaperWidget).printedText ∧
      s0.x = 0 ∧ s0.y = 0 ∧ s0.lineCount = 0 ∧
      s0.zoom = max 1
        (({ sampleSession with sizeWidth := 400, printedText := [65, 10] } : PaperWidget).sizeWidth
          / ((sampleConfig 3 false).PAPER_WIDTH + (sampleConfig 3 false).PAPER_HORIZONTAL_MARGIN)) ∧
      buildPixmap (sampleConfig 3 false)
        { sampleSession with sizeWidth := 400, printedText := [65, 10] } = some t ∧
      t.zoom = max 1
        (({ sampleSession with sizeWidth := 400, printedText := [65, 10] } : PaperWidget).sizeWidth
          / ((sampleConfig 3 false).PAPER_WIDTH + (sampleConfig 3 false).PAPER_HORIZONTAL_MARGIN)) ∧
      1 ≤ t.zoom :=
  ⟨by decide, by decide,
    buildPixmap_sets_zoom (sampleConfig 3 false)
      { sampleSession with sizeWidth := 400, printedText := [65, 10] } (by decide) (by decide)⟩

end PaperWidget

namespace PaperWidget

/-- Claim C14, evaluated on the code where `char` is signed.  After an escape,
a byte `b` in 128..255 is read as `b - 256` and stored by the `default` branch
of `processEscape` as the number of graphics bytes expected, which is then
negative: the first half of the invariant (a number that is never below 0)
does not hold after the two bytes `[27, b]`. -/
theorem escape_high_byte_leaves_negative_count (cfg : Config) (s : PaperWidget) (b : Byte)
    (hs : cfg.charIsSigned = true) (hN : Normal s) (hb : 128 ≤ b.val) :
    ∃ t, print cfg s [27, b] = some t ∧
      t.expectedGraphicsChars = (b.val : Int) - 256 ∧ t.expectedGraphicsChars < 0 := by
  have hlt : (b.val : Int) < 256 := by exact_mod_cast b.isLt
  refine ⟨_, print_escape_signed_high cfg s b hs hN hb, rfl, ?_⟩
  show (b.val : Int) - 256 < 0
  omega

theorem escape_high_byte_leaves_negative_count_witness :
    (sampleConfig 3 true).charIsSigned = true ∧ Normal (new (sampleConfig 3 true) 186 260) ∧
    128 ≤ (200 : Byte).val ∧
    ∃ t, print (sampleConfig 3 true) (new (sampleConfig 3 true) 186 260) [27, 200] = some t ∧
      t.expectedGraphicsChars = ((200 : Byte).val : Int) - 256 ∧ t.expectedGraphicsChars < 0 :=
  ⟨rfl, by decide, by decide,
    escape_high_byte_leaves_negative_count (sampleConfig 3 true)
      (new (sampleConfig 3 true) 186 260) 200 rfl (by decide) (by decide)⟩

theorem processEscape_count_nonneg (s : PaperWidget) (c : Int) (hc : 0 ≤ c)
    (h : 0 ≤ s.expectedGraphicsChars) : 0 ≤ (processEscape s c).expectedGraphicsChars := by
  unfold processEscape resetPrinter selfTest
  split_ifs <;> first | exact h | exact hc | exact le_refl _

/-- The part of the invariant of claim C14 that holds where `char` is
unsigned: with a raster present, a step of `print` returns a state and keeps
the number of expected graphics bytes at 0 or more. -/
theorem printChar_count_nonneg_unsigned (cfg : Config) (s : PaperWidget) (b : Byte)
    (p : QPixmap) (hs : cfg.charIsSigned = false) (hp : s.pixmap = some p)
    (h : 0 ≤ s.expectedGraphicsChars) :
    ∃ t, printChar cfg s b = some t ∧ 0 ≤ t.expectedGraphicsChars := by
  have hc : charToInt cfg b = (b.val : Int) := charToInt_unsigned cfg b hs
  have hc0 : (0 : Int) ≤ (b.val : Int) := Int.natCast_nonneg _
  unfold printChar dispatch
  by_cases hg : s.expectedGraphicsChars > 0
  · simp only [if_pos hg]
    obtain ⟨q, hq, -⟩ := processGraphics_size cfg
      { s with expectedGraphicsChars := s.expectedGraphicsChars - 1 } (charToInt cfg b) p hp
    rw [hq]
    refine ⟨_, rfl, ?_⟩
    show 0 ≤ s.expectedGraphicsChars - 1
    omega
  simp only [if_neg hg]
  by_cases he : s.lastIsEscape = true
  · simp only [if_pos he]
    refine ⟨_, rfl, ?_⟩
    show 0 ≤ (processEscape s (charToInt cfg b)).expectedGraphicsChars
    rw [hc]
    exact processEscape_count_nonneg s _ hc0 h
  simp only [if_neg he]
  have hfeed : ∃ u, (lineFeed cfg s).map (fun t => { t with lastIsEscape := false }) = some u ∧
      0 ≤ u.expectedGraphicsChars := by
    obtain ⟨v, q, h1, -, -, -, -, -, -, -, -, -, h11, -⟩ := lineFeed_spec cfg s p hp
    rw [h1]
    refine ⟨_, rfl, ?_⟩
    show 0 ≤ v.expectedGraphicsChars
    rw [h11]; exact h
  by_cases h10 : charToInt cfg b = END_OF_LINE
  · simp only [if_pos h10, endOfLine]
    exact hfeed
  simp only [if_neg h10]
  by_cases h4 : charToInt cfg b = LINE_FEED
  · simp only [if_pos h4]
    exact hfeed
  simp only [if_neg h4]
  by_cases h27 : charToInt cfg b = ESCAPE_CHAR
  · simp only [if_pos h27]
    exact ⟨_, rfl, h⟩
  simp only [if_neg h27]
  by_cases hcc : 32 ≤ charToInt cfg b
  · rw [processNormalChar_addInk cfg s _ p hp hcc]
    exact ⟨_, rfl, h⟩
  · rw [processNormalChar_ignored cfg s _ (by omega)]
    exact ⟨_, rfl, h⟩

end PaperWidget

namespace PaperWidget

/-- A rebuild followed by `print` of any byte sequence returns a state, and
`Keeps` relates it to the state from which the replay started, where the cursor
is at (0, 0) and `lineCount` is 0. -/
theorem rebuild_then_print (cfg : Config) (s : PaperWidget) (S : List Byte) :
    ∃ s0 t0 t, buildPixmap cfg s = some t0 ∧ print cfg t0 S = some t ∧
      s0.y = 0 ∧ s0.lineCount = 0 ∧ Keeps cfg s0 t0 ∧ Keeps cfg s0 t := by
  obtain ⟨s0, q, h1, h2, -, h4, h5, -⟩ := buildPixmap_eq cfg s
  obtain ⟨t0, ht0, hk0⟩ := print_keeps cfg s.printedText s0 q h2
  obtain ⟨q0, hq0, -⟩ := hk0.2.2.2.2.2.2 q h2
  obtain ⟨t, ht, hk⟩ := print_keeps cfg S t0 q0 hq0
  exact ⟨s0, t0, t, by rw [h1, ht0], ht, h4, h5, hk0, keeps_trans cfg s0 t0 t hk0 hk⟩

/-- Claim C15.  With a raster present, `lineFeed` returns and keeps
`lineCount` within 0..`MAX_LINES`, a `lineCount` equal to `MAX_LINES` staying
there.  Hence, `MAX_LINES` being 0 or more, after a rebuild and after printing
any byte sequence in the rebuilt state, `lineCount` is within 0..`MAX_LINES`. -/
theorem lineCount_stays_within_max (cfg : Config) (hM : 0 ≤ cfg.MAX_LINES) :
    (∀ (s : PaperWidget) (p : QPixmap), s.pixmap = some p →
      0 ≤ s.lineCount → s.lineCount ≤ cfg.MAX_LINES →
      ∃ t, lineFeed cfg s = some t ∧ 0 ≤ t.lineCount ∧ t.lineCount ≤ cfg.MAX_LINES ∧
        (s.lineCount = cfg.MAX_LINES → t.lineCount = cfg.MAX_LINES)) ∧
    (∀ (s : PaperWidget) (S : List Byte),
      ∃ t0 t, buildPixmap cfg s = some t0 ∧ print cfg t0 S = some t ∧
        0 ≤ t0.lineCount ∧ t0.lineCount ≤ cfg.MAX_LINES ∧
        0 ≤ t.lineCount ∧ t.lineCount ≤ cfg.MAX_LINES) := by
  constructor
  · intro s p hp h0 h1
    obtain ⟨t, q, ht, -, -, -, h5, -⟩ := lineFeed_spec cfg s p hp
    refine ⟨t, ht, ?_, ?_, ?_⟩
    · rw [h5]; split <;> omega
    · rw [h5]; split <;> omega
    · intro he
      rw [h5]; split <;> omega
  · intro s S
    obtain ⟨s0, t0, t, h1, h2, -, h4, hk0, hk⟩ := rebuild_then_print cfg s S
    have b0 := hk0.2.2.2.2.2.1 ⟨by rw [h4], by rw [h4]; exact hM⟩
    have b := hk.2.2.2.2.2.1 ⟨by rw [h4], by rw [h4]; exact hM⟩
    exact ⟨t0, t, h1, h2, b0.1, b0.2, b.1, b.2⟩

theorem lineCount_stays_within_max_witness :
    0 ≤ (sampleConfig 3 false).MAX_LINES ∧
    (∀ (s : PaperWidget) (p : QPixmap), s.pixmap = some p →
      0 ≤ s.lineCount → s.lineCount ≤ (sampleConfig 3 false).MAX_LINES →
      ∃ t, lineFeed (sampleConfig 3 false) s = some t ∧ 0 ≤ t.lineCount ∧
        t.lineCount ≤ (sampleConfig 3 false).MAX_LINES ∧
        (s.lineCount = (sampleConfig 3 false).MAX_LINES →
          t.lineCount = (sampleConfig 3 false).MAX_LINES)) ∧
    (∀ (s : PaperWidget) (S : List Byte),
      ∃ t0 t, buildPixmap (sampleConfig 3 false) s = some t0 ∧
        print (sampleConfig 3 false) t0 S = some t ∧
        0 ≤ t0.lineCount ∧ t0.lineCount ≤ (sampleConfig 3 false).MAX_LINES ∧
        0 ≤ t.lineCount ∧ t.lineCount ≤ (sampleConfig 3 false).MAX_LINES) :=
  ⟨by decide, lineCount_stays_within_max (sampleConfig 3 false) (by decide)⟩

/-- Claim C16.  With a raster of positive width and height present: `lineFeed`
returns with a raster at least as high as `toY(y + LINE_HEIGHT)` for the new
`y`, which is either the old height or, when that is not below the old height,
exactly `toY(y + LINE_HEIGHT)`; when the cursor row is `lineCount` lines down
(as it is after a rebuild), the line height is not negative and the zoom is not
negative, the raster is also at least as high as `toY(lineCount * LINE_HEIGHT)`.
`removeFirstLine` keeps the size of the raster, and `print` of any byte
sequence returns with a raster that is not lower than before. -/
theorem raster_height_covers_content (cfg : Config) (s : PaperWidget) (p : QPixmap)
    (hp : s.pixmap = some p) (hw : 0 < p.width) (hh : 0 < p.height) :
    (∃ t q, lineFeed cfg s = some t ∧ t.pixmap = some q ∧
      toY cfg t (t.y + cfg.LINE_HEIGHT) ≤ q.height ∧ p.height ≤ q.height ∧
      (q.height = p.height ∨
        (q.height = toY cfg t (t.y + cfg.LINE_HEIGHT) ∧
          p.height ≤ toY cfg t (t.y + cfg.LINE_HEIGHT))) ∧
      (s.y = s.lineCount * cfg.LINE_HEIGHT → 0 ≤ cfg.LINE_HEIGHT → 0 ≤ s.zoom →
        toY cfg t (t.lineCount * cfg.LINE_HEIGHT) ≤ q.height)) ∧
    (∃ t q, removeFirstLine cfg s = some t ∧ t.pixmap = some q ∧
      q.width = p.width ∧ q.height = p.height) ∧
    (∀ S : List Byte, ∃ t q, print cfg s S = some t ∧ t.pixmap = some q ∧
      q.width = p.width ∧ p.height ≤ q.height) := by
  refine ⟨?_, ?_, ?_⟩
  · obtain ⟨t, q, h1, h2, -, h4, h5, h6, -, -, -, -, -, -, -, -, h15⟩ := lineFeed_spec cfg s p hp
    obtain ⟨-, d2, d3, d4⟩ := h15 hw hh
    refine ⟨t, q, h1, h2, d3, d2, d4, ?_⟩
    intro hy hL hz
    have hty : t.y = t.lineCount * cfg.LINE_HEIGHT := by
      rw [h4, h5, hy]
      split <;> ring
    have hmono : toY cfg t (t.lineCount * cfg.LINE_HEIGHT) ≤ toY cfg t (t.y + cfg.LINE_HEIGHT) := by
      unfold toY
      rw [← hty, add_mul, h6]
      have := mul_nonneg hL hz
      omega
    exact le_trans hmono d3
  · rw [removeFirstLine_of_pixmap cfg s p hp]
    obtain ⟨b1, b2⟩ := blank_dims p.width p.height hw hh
    exact ⟨_, _, rfl, rfl, b1, b2⟩
  · intro S
    obtain ⟨t, ht, hk⟩ := print_keeps cfg S s p hp
    obtain ⟨q, hq, hq'⟩ := hk.2.2.2.2.2.2 p hp
    exact ⟨t, q, ht, hq, (hq' ⟨hw, hh⟩).1, (hq' ⟨hw, hh⟩).2⟩

theorem raster_height_covers_content_witness :
    sampleSession.pixmap = some (QPixmap.blank 186 260) ∧
    0 < (QPixmap.blank 186 260).width ∧ 0 < (QPixmap.blank 186 260).height ∧
    (∃ t q, lineFeed (sampleConfig 3 false) sampleSession = some t ∧ t.pixmap = some q ∧
      toY (sampleConfig 3 false) t (t.y + (sampleConfig 3 false).LINE_HEIGHT) ≤ q.height ∧
      (QPixmap.blank 186 260).height ≤ q.height ∧
      (q.height = (QPixmap.blank 186 260).height ∨
        (q.height = toY (sampleConfig 3 false) t (t.y + (sampleConfig 3 false).LINE_HEIGHT) ∧
          (QPixmap.blank 186 260).height
            ≤ toY (sampleConfig 3 false) t (t.y + (sampleConfig 3 false).LINE_HEIGHT))) ∧
      (sampleSession.y = sampleSession.lineCount * (sampleConfig 3 false).LINE_HEIGHT →
        0 ≤ (sampleConfig 3 false).LINE_HEIGHT → 0 ≤ sampleSession.zoom →
        toY (sampleConfig 3 false) t (t.lineCount * (sampleConfig 3 false).LINE_HEIGHT)
          ≤ q.height)) ∧
    (∃ t q, removeFirstLine (sampleConfig 3 false) sampleSession = some t ∧ t.pixmap = some q ∧
      q.width = (QPixmap.blank 186 260).width ∧ q.height = (QPixmap.blank 186 260).height) ∧
    (∀ S : List Byte, ∃ t q, print (sampleConfig 3 false) sampleSession S = some t ∧
      t.pixmap = some q ∧
      q.width = (QPixmap.blank 186 260).width ∧ (QPixmap.blank 186 260).height ≤ q.height) :=
  ⟨rfl, by decide, by decide,
    raster_height_covers_content (sampleConfig 3 false) sampleSession (QPixmap.blank 186 260)
      rfl (by decide) (by decide)⟩

/-- Claim C19.  With `MAX_LINES` and `LINE_HEIGHT` not negative: after a
rebuild and after printing any byte sequence in the rebuilt state, the cursor
row is `lineCount * LINE_HEIGHT`, hence within 0..`MAX_LINES * LINE_HEIGHT`.
With a raster present `lineFeed` keeps the difference between the cursor row
and `lineCount` lines, and `removeFirstLine` takes one line from both. -/
theorem cursor_row_tracks_lineCount (cfg : Config) (hM : 0 ≤ cfg.MAX_LINES)
    (hL : 0 ≤ cfg.LINE_HEIGHT) :
    (∀ (s : PaperWidget) (S : List Byte),
      ∃ t0 t, buildPixmap cfg s = some t0 ∧ print cfg t0 S = some t ∧
        t.y = t.lineCount * cfg.LINE_HEIGHT ∧ 0 ≤ t.y ∧ t.y ≤ cfg.MAX_LINES * cfg.LINE_HEIGHT) ∧
    (∀ (s : PaperWidget) (p : QPixmap), s.pixmap = some p →
      (∃ t, lineFeed cfg s = some t ∧
        t.y - t.lineCount * cfg.LINE_HEIGHT = s.y - s.lineCount * cfg.LINE_HEIGHT) ∧
      (∃ t, removeFirstLine cfg s = some t ∧
        t.y = s.y - cfg.LINE_HEIGHT ∧ t.lineCount = s.lineCount - 1)) := by
  constructor
  · intro s S
    obtain ⟨s0, t0, t, h1, h2, h3, h4, -, hk⟩ := rebuild_then_print cfg s S
    have hrow := hk.2.2.2.2.1
    rw [h3, h4] at hrow
    have b := hk.2.2.2.2.2.1 ⟨by rw [h4], by rw [h4]; exact hM⟩
    have hy : t.y = t.lineCount * cfg.LINE_HEIGHT := by
      have : t.y - t.lineCount * cfg.LINE_HEIGHT = 0 := by rw [hrow]; ring
      omega
    refine ⟨t0, t, h1, h2, hy, ?_, ?_⟩
    · rw [hy]; exact mul_nonneg b.1 hL
    · rw [hy]; exact mul_le_mul_of_nonneg_right b.2 hL
  · intro s p hp
    constructor
    · obtain ⟨t, q, ht, -, -, h4, h5, -⟩ := lineFeed_spec cfg s p hp
      refine ⟨t, ht, ?_⟩
      rw [h4, h5]
      split <;> ring
    · rw [removeFirstLine_of_pixmap cfg s p hp]
      exact ⟨_, rfl, rfl, rfl⟩

theorem cursor_row_tracks_lineCount_witness :
    0 ≤ (sampleConfig 3 false).MAX_LINES ∧ 0 ≤ (sampleConfig 3 false).LINE_HEIGHT ∧
    (∀ (s : PaperWidget) (S : List Byte),
      ∃ t0 t, buildPixmap (sampleConfig 3 false) s = some t0 ∧
        print (sampleConfig 3 false) t0 S = some t ∧
        t.y = t.lineCount * (sampleConfig 3 false).LINE_HEIGHT ∧ 0 ≤ t.y ∧
        t.y ≤ (sampleConfig 3 false).MAX_LINES * (sampleConfig 3 false).LINE_HEIGHT) ∧
    (∀ (s : PaperWidget) (p : QPixmap), s.pixmap = some p →
      (∃ t, lineFeed (sampleConfig 3 false) s = some t ∧
        t.y - t.lineCount * (sampleConfig 3 false).LINE_HEIGHT
          = s.y - s.lineCount * (sampleConfig 3 false).LINE_HEIGHT) ∧
      (∃ t, removeFirstLine (sampleConfig 3 false) s = some t ∧
        t.y = s.y - (sampleConfig 3 false).LINE_HEIGHT ∧ t.lineCount = s.lineCount - 1)) :=
  ⟨by decide, by decide,
    cursor_row_tracks_lineCount (sampleConfig 3 false) (by decide) (by decide)⟩

/-- Claim C20, evaluated on the code.  The constructor leaves `pixmap` and
`painter` null, and `clear` and `resizeEvent` delete them; only `paintEvent`
builds them.  `append` does not: a line terminator appended to the widget just
constructed, or to a painted widget after `clear` or after a resize, reaches
`lineFeed`, which dereferences the missing pixmap.  The same holds for a glyph
with a set bit (`A`) and for a graphics column with a set bit. -/
theorem append_without_raster_fails (cfg : Config) (w h : Int) :
    append cfg (new cfg w h) [10] = none ∧
    (∃ s, fresh cfg w h = some s ∧ append cfg (clear s) [10] = none ∧
      ∀ w1 h1 : Int, append cfg (resizeEvent s w1 h1) [10] = none) ∧
    append (sampleConfig 3 false) (new (sampleConfig 3 false) 186 260) [65] = none ∧
    append (sampleConfig 3 false) (new (sampleConfig 3 false) 186 260) [27, 1, 1] = none := by
  have hfail : ∀ u : PaperWidget, u.lastIsEscape = false → u.expectedGraphicsChars ≤ 0 →
      u.pixmap = none → append cfg u [10] = none := by
    intro u he hg hp
    unfold append
    simp only [print, printChar_terminator cfg u he hg, lineFeed_no_pixmap cfg u hp, Option.map_none']
  refine ⟨hfail _ rfl (le_refl _) rfl, ?_, rfl, rfl⟩
  obtain ⟨z, o, m, q, hf⟩ := fresh_eq cfg w h
  exact ⟨_, hf, hfail _ rfl (le_refl _) rfl, fun w1 h1 => hfail _ rfl (le_refl _) rfl⟩

end PaperWidget

namespace QtKeyboard

theorem slot_succ (size b i : Nat) : ((b + 1) % size + i) % size = (b + (i + 1)) % size := by
  rw [Nat.mod_add_mod]
  congr 1
  omega

theorem slot_inj (size b i j : Nat) (hi : i < size) (hj : j < size)
    (h : (b + i) % size = (b + j) % size) : i = j := by
  have h1 : i % size = j % size := Nat.ModEq.add_left_cancel' b h
  rwa [Nat.mod_eq_of_lt hi, Nat.mod_eq_of_lt hj] at h1

theorem pending_lt (size : Nat) (k : QtKeyboard) (hs : 0 < size) : pending size k < size :=
  Nat.mod_lt _ hs

theorem slot_pending (size : Nat) (k : QtKeyboard)
    (hb : k.keyboardBufferBegin < size) (he : k.keyboardBufferEnd < size) :
    (k.keyboardBufferBegin + pending size k) % size = k.keyboardBufferEnd := by
  unfold pending
  rw [Nat.add_mod_mod]
  have : k.keyboardBufferBegin + (k.keyboardBufferEnd + size - k.keyboardBufferBegin)
      = k.keyboardBufferEnd + size := by omega
  rw [this, Nat.add_mod_right, Nat.mod_eq_of_lt he]

theorem pending_unique (size : Nat) (k : QtKeyboard) (d : Nat)
    (hb : k.keyboardBufferBegin < size) (he : k.keyboardBufferEnd < size)
    (hd : d < size) (h : (k.keyboardBufferBegin + d) % size = k.keyboardBufferEnd) :
    pending size k = d := by
  have hs : 0 < size := by omega
  exact slot_inj size k.keyboardBufferBegin _ _ (pending_lt size k hs) hd
    (by rw [slot_pending size k hb he, h])

theorem pending_eq_zero_iff (size : Nat) (k : QtKeyboard)
    (hb : k.keyboardBufferBegin < size) (he : k.keyboardBufferEnd < size) :
    pending size k = 0 ↔ k.keyboardBufferBegin = k.keyboardBufferEnd := by
  constructor
  · intro h
    have := slot_pending size k hb he
    rw [h, Nat.add_zero, Nat.mod_eq_of_lt hb] at this
    exact this
  · intro h
    exact pending_unique size k 0 hb he (by omega) (by rw [Nat.add_zero, Nat.mod_eq_of_lt hb, h])

end QtKeyboard

namespace QtKeyboard

theorem queue_length (size : Nat) (k : QtKeyboard) : (queue size k).length = pending size k := by
  simp [queue]

theorem getKey_of_empty (size : Nat) (k : QtKeyboard)
    (h : k.keyboardBufferBegin = k.keyboardBufferEnd) : getKey size k = (-1, k) := by
  simp [getKey, getKeyNoLock, h]

theorem getKey_of_nonempty (size : Nat) (k : QtKeyboard)
    (hb : k.keyboardBufferBegin < size) (he : k.keyboardBufferEnd < size)
    (h : k.keyboardBufferBegin ≠ k.keyboardBufferEnd) :
    queue size k = (getKey size k).1 :: queue size (getKey size k).2 ∧
    (getKey size k).2.keyboardBufferBegin < size ∧
    (getKey size k).2.keyboardBufferEnd = k.keyboardBufferEnd ∧
    pending size (getKey size k).2 + 1 = pending size k := by
  have hs : 0 < size := by omega
  have hp0 : pending size k ≠ 0 := fun h0 => h ((pending_eq_zero_iff size k hb he).1 h0)
  have hplt := pending_lt size k hs
  have hget : getKey size k = (k.keyboardBuffer k.keyboardBufferBegin,
      { k with keyboardBufferBegin := (k.keyboardBufferBegin + 1) % size }) := by
    simp [getKey, getKeyNoLock, h]
  have hb' : (k.keyboardBufferBegin + 1) % size < size := Nat.mod_lt _ hs
  have hp : pending size
      { k with keyboardBufferBegin := (k.keyboardBufferBegin + 1) % size }
      = pending size k - 1 := by
    refine pending_unique size
      { k with keyboardBufferBegin := (k.keyboardBufferBegin + 1) % size }
      (pending size k - 1) hb' he (by omega) ?_
    show ((k.keyboardBufferBegin + 1) % size + (pending size k - 1)) % size = k.keyboardBufferEnd
    rw [slot_succ, show pending size k - 1 + 1 = pending size k by omega]
    exact slot_pending size k hb he
  rw [hget]
  refine ⟨?_, hb', rfl, by rw [hp]; omega⟩
  show queue size k = _ :: queue size _
  have hq : queue size k = (List.range (pending size k - 1 + 1)).map fun i =>
      k.keyboardBuffer ((k.keyboardBufferBegin + i) % size) := by
    rw [show pending size k - 1 + 1 = pending size k by omega]; rfl
  rw [hq, List.range_succ_eq_map, List.map_cons, List.map_map]
  congr 1
  · rw [Nat.add_zero, Nat.mod_eq_of_lt hb]
  · unfold queue
    rw [hp]
    apply List.map_congr_left
    intro i _
    show k.keyboardBuffer ((k.keyboardBufferBegin + (i + 1)) % size) =
      k.keyboardBuffer (((k.keyboardBufferBegin + 1) % size + i) % size)
    rw [slot_succ]

theorem putKey_end (size : Nat) (k : QtKeyboard) (aKey : Int)
    (hb : k.keyboardBufferBegin < size) (he : k.keyboardBufferEnd < size) :
    (putKey size k aKey).keyboardBufferEnd =
      (k.keyboardBufferBegin + (pending size k + 1)) % size := by
  show (k.keyboardBufferEnd + 1) % size = _
  rw [← slot_pending size k hb he, Nat.mod_add_mod]
  rfl

theorem putKey_of_room (size : Nat) (k : QtKeyboard) (aKey : Int)
    (hb : k.keyboardBufferBegin < size) (he : k.keyboardBufferEnd < size)
    (hroom : pending size k + 1 < size) :
    queue size (putKey size k aKey) = queue size k ++ [aKey] ∧
    pending size (putKey size k aKey) = pending size k + 1 := by
  have hs : 0 < size := by omega
  have he' : (putKey size k aKey).keyboardBufferEnd < size := Nat.mod_lt _ hs
  have hp : pending size (putKey size k aKey) = pending size k + 1 :=
    pending_unique size _ _ hb he' hroom (putKey_end size k aKey hb he).symm
  refine ⟨?_, hp⟩
  unfold queue
  rw [hp, List.range_succ, List.map_append, List.map_singleton]
  congr 1
  · apply List.map_congr_left
    intro i hi
    have hi' : i < pending size k := List.mem_range.1 hi
    show Function.update k.keyboardBuffer k.keyboardBufferEnd aKey
        ((k.keyboardBufferBegin + i) % size) = _
    rw [Function.update_noteq]
    intro heq
    rw [← slot_pending size k hb he] at heq
    have := slot_inj size _ _ _ (by omega) (by omega) heq
    omega
  · show [Function.update k.keyboardBuffer k.keyboardBufferEnd aKey
        ((k.keyboardBufferBegin + pending size k) % size)] = _
    rw [slot_pending size k hb he, Function.update_same]

theorem putKey_of_full (size : Nat) (k : QtKeyboard) (aKey : Int)
    (hb : k.keyboardBufferBegin < size) (he : k.keyboardBufferEnd < size)
    (hfull : pending size k + 1 = size) :
    (putKey size k aKey).keyboardBufferEnd = (putKey size k aKey).keyboardBufferBegin ∧
    pending size (putKey size k aKey) = 0 := by
  have hs : 0 < size := by omega
  have he' : (putKey size k aKey).keyboardBufferEnd = k.keyboardBufferBegin := by
    rw [putKey_end size k aKey hb he, hfull, Nat.add_mod_right, Nat.mod_eq_of_lt hb]
  refine ⟨he', ?_⟩
  exact (pending_eq_zero_iff size (putKey size k aKey) hb (by rw [he']; exact hb)).2 he'.symm

theorem inv_new (size : Nat) (buffer : Nat → Int) (hs : 0 < size) :
    Inv size (QtKeyboard.new buffer) := by
  refine ⟨hs, hs, ?_⟩
  have : pending size (QtKeyboard.new buffer) = 0 :=
    (pending_eq_zero_iff size _ hs hs).2 rfl
  intro x hx
  simp [queue, this] at hx

theorem inv_putKey (size : Nat) (k : QtKeyboard) (aKey : Int) (h : Inv size k)
    (ha : KeyCode aKey) : Inv size (putKey size k aKey) := by
  obtain ⟨hb, he, hq⟩ := h
  have hs : 0 < size := by omega
  refine ⟨hb, Nat.mod_lt _ hs, ?_⟩
  by_cases hroom : pending size k + 1 < size
  · rw [(putKey_of_room size k aKey hb he hroom).1]
    intro x hx
    rcases List.mem_append.1 hx with hx | hx
    · exact hq x hx
    · rw [List.mem_singleton.1 hx]; exact ha
  · have hfull : pending size k + 1 = size := by
      have := pending_lt size k hs
      omega
    intro x hx
    simp [queue, (putKey_of_full size k aKey hb he hfull).2] at hx

theorem inv_getKey (size : Nat) (k : QtKeyboard) (h : Inv size k) :
    Inv size (getKey size k).2 := by
  obtain ⟨hb, he, hq⟩ := h
  by_cases hemp : k.keyboardBufferBegin = k.keyboardBufferEnd
  · rw [getKey_of_empty size k hemp]
    exact ⟨hb, he, hq⟩
  · obtain ⟨h1, h2, h3, -⟩ := getKey_of_nonempty size k hb he hemp
    refine ⟨h2, by rw [h3]; exact he, ?_⟩
    intro x hx
    exact hq x (by rw [h1]; exact List.mem_cons_of_mem _ hx)

theorem inv_putKeyIfBufferEmpty (size : Nat) (k : QtKeyboard) (aKey : Int) (h : Inv size k)
    (ha : KeyCode aKey) : Inv size (putKeyIfBufferEmpty size k aKey) := by
  unfold putKeyIfBufferEmpty
  split
  · exact inv_putKey size k aKey h ha
  · exact h

theorem inv_of_reachable (size : Nat) (hs : 0 < size) (k : QtKeyboard)
    (h : Reachable size k) : Inv size k := by
  induction h with
  | new buffer => exact inv_new size buffer hs
  | putKey k aKey _ ha ih => exact inv_putKey size k aKey ih ha
  | putKeyIfBufferEmpty k aKey _ ha ih => exact inv_putKeyIfBufferEmpty size k aKey ih ha
  | getKey k _ ih => exact inv_getKey size k ih

theorem inv_getKeys (size : Nat) (n : Nat) (k : QtKeyboard) (h : Inv size k) :
    Inv size (getKeys size n k).2 := by
  induction n generalizing k with
  | zero => exact h
  | succ n ih => exact ih _ (inv_getKey size k h)

theorem getKey_eq_neg_one_iff (size : Nat) (k : QtKeyboard) (h : Inv size k) :
    (getKey size k).1 = -1 ↔ isKeyPressed k = false := by
  obtain ⟨hb, he, hq⟩ := h
  by_cases hemp : k.keyboardBufferBegin = k.keyboardBufferEnd
  · simp [getKey_of_empty size k hemp, isKeyPressed, isKeyPressedNoLock, hemp]
  · obtain ⟨h1, -⟩ := getKey_of_nonempty size k hb he hemp
    have hk : KeyCode (getKey size k).1 := hq _ (by rw [h1]; exact List.mem_cons_self _ _)
    have hne : (getKey size k).1 ≠ -1 := by
      intro h'
      rw [h'] at hk
      exact absurd hk.1 (by decide)
    simp [hne, isKeyPressed, isKeyPressedNoLock, hemp]

theorem getKeys_queue (size : Nat) (q : List Int) (k : QtKeyboard) (h : Inv size k)
    (hq : queue size k = q) : (getKeys size (q.length + 1) k).1 = q ++ [-1] := by
  induction q generalizing k with
  | nil =>
    have hp : pending size k = 0 := by rw [← queue_length, hq]; rfl
    have hemp := (pending_eq_zero_iff size k h.1 h.2.1).1 hp
    simp [getKeys, getKey_of_empty size k hemp]
  | cons x r ih =>
    have hp : pending size k ≠ 0 := by rw [← queue_length, hq]; simp
    have hemp : k.keyboardBufferBegin ≠ k.keyboardBufferEnd :=
      fun h' => hp ((pending_eq_zero_iff size k h.1 h.2.1).2 h')
    obtain ⟨h1, -⟩ := getKey_of_nonempty size k h.1 h.2.1 hemp
    rw [hq] at h1
    obtain ⟨hx, hr⟩ := List.cons.inj h1
    have := ih (getKey size k).2 (inv_getKey size k h) hr.symm
    show (getKey size k).1 :: (getKeys size (r.length + 1) (getKey size k).2).1 = x :: r ++ [-1]
    rw [this, ← hx]
    rfl

theorem keysBeforeEmpty_eq_pending (size : Nat) (fuel : Nat) (k : QtKeyboard) (h : Inv size k)
    (hf : pending size k ≤ fuel) : keysBeforeEmpty size fuel k = pending size k := by
  induction fuel generalizing k with
  | zero =>
    have : pending size k = 0 := by omega
    rw [this]; rfl
  | succ fuel ih =>
    by_cases hemp : k.keyboardBufferBegin = k.keyboardBufferEnd
    · have hp := (pending_eq_zero_iff size k h.1 h.2.1).2 hemp
      simp [keysBeforeEmpty, getKey_of_empty size k hemp, hp]
    · obtain ⟨-, -, -, h4⟩ := getKey_of_nonempty size k h.1 h.2.1 hemp
      have hne : (getKey size k).1 ≠ -1 := by
        intro h'
        have := (getKey_eq_neg_one_iff size k h).1 h'
        simp [isKeyPressed, isKeyPressedNoLock, hemp] at this
      have := ih (getKey size k).2 (inv_getKey size k h) (by omega)
      simp only [keysBeforeEmpty, hne, if_false, this]
      exact h4

theorem queue_putKeys (size : Nat) (ks : List Int) (k : QtKeyboard) (h : Inv size k)
    (hroom : pending size k + ks.length < size) (hks : ∀ x ∈ ks, KeyCode x) :
    queue size (ks.foldl (putKey size) k) = queue size k ++ ks ∧
    Inv size (ks.foldl (putKey size) k) := by
  induction ks generalizing k with
  | nil => simpa using h
  | cons a ks ih =>
    simp only [List.length_cons] at hroom
    obtain ⟨h1, h2⟩ := putKey_of_room size k a h.1 h.2.1 (by omega)
    have hinv := inv_putKey size k a h (hks a (List.mem_cons_self _ _))
    obtain ⟨h3, h4⟩ := ih (putKey size k a) hinv (by rw [h2]; omega)
      (fun x hx => hks x (List.mem_cons_of_mem _ hx))
    refine ⟨?_, h4⟩
    rw [List.foldl_cons, h3, h1, List.append_assoc]
    rfl

end QtKeyboard

namespace QtKeyboard

/-- Claim C17.  Starting from an empty buffer (begin = end, at any index of
the array), putting fewer than `KEYBOARD_BUFFER_SIZE` key codes of 0..127 and
then calling `getKey` once more than that returns the keys in the order they
were put, followed by -1.  In every state on the way (after any number of the
puts and any number of calls of `getKey`), `getKey` returns -1 exactly when
`isKeyPressed` is false, and both indices are inside the array. -/
theorem keyboard_buffer_fifo (size : Nat) (k : QtKeyboard) (ks : List Int)
    (hempty : k.keyboardBufferBegin = k.keyboardBufferEnd)
    (hb : k.keyboardBufferBegin < size) (hn : ks.length < size)
    (hks : ∀ x ∈ ks, KeyCode x) :
    (getKeys size (ks.length + 1) (ks.foldl (putKey size) k)).1 = ks ++ [-1] ∧
    ∀ i j : Nat,
      ((getKey size (getKeys size j ((ks.take i).foldl (putKey size) k)).2).1 = -1 ↔
        isKeyPressed (getKeys size j ((ks.take i).foldl (putKey size) k)).2 = false) ∧
      (getKeys size j ((ks.take i).foldl (putKey size) k)).2.keyboardBufferBegin < size ∧
      (getKeys size j ((ks.take i).foldl (putKey size) k)).2.keyboardBufferEnd < size := by
  have he : k.keyboardBufferEnd < size := by rw [← hempty]; exact hb
  have hp : pending size k = 0 := (pending_eq_zero_iff size k hb he).2 hempty
  have hq : queue size k = [] := by simp [queue, hp]
  have hinv : Inv size k := ⟨hb, he, by rw [hq]; intro x hx; cases hx⟩
  constructor
  · obtain ⟨h1, h2⟩ := queue_putKeys size ks k hinv (by omega) hks
    rw [hq, List.nil_append] at h1
    exact getKeys_queue size ks _ h2 h1
  · intro i j
    have hlen : (ks.take i).length ≤ ks.length := by rw [List.length_take]; exact Nat.min_le_right _ _
    obtain ⟨-, h2⟩ := queue_putKeys size (ks.take i) k hinv (by omega)
      (fun x hx => hks x (List.mem_of_mem_take hx))
    have h3 := inv_getKeys size j _ h2
    exact ⟨getKey_eq_neg_one_iff size _ h3, h3.1, h3.2.1⟩

theorem keyboard_buffer_fifo_witness :
    (QtKeyboard.new fun _ => 0).keyboardBufferBegin = (QtKeyboard.new fun _ => 0).keyboardBufferEnd ∧
    (QtKeyboard.new fun _ => 0).keyboardBufferBegin < 4 ∧
    ([1, 2, 3] : List Int).length < 4 ∧
    (∀ x ∈ ([1, 2, 3] : List Int), KeyCode x) ∧
    (getKeys 4 (([1, 2, 3] : List Int).length + 1)
        (([1, 2, 3] : List Int).foldl (putKey 4) (QtKeyboard.new fun _ => 0))).1
      = [1, 2, 3] ++ [-1] ∧
    ∀ i j : Nat,
      ((getKey 4 (getKeys 4 j ((([1, 2, 3] : List Int).take i).foldl (putKey 4)
          (QtKeyboard.new fun _ => 0))).2).1 = -1 ↔
        isKeyPressed (getKeys 4 j ((([1, 2, 3] : List Int).take i).foldl (putKey 4)
          (QtKeyboard.new fun _ => 0))).2 = false) ∧
      (getKeys 4 j ((([1, 2, 3] : List Int).take i).foldl (putKey 4)
          (QtKeyboard.new fun _ => 0))).2.keyboardBufferBegin < 4 ∧
      (getKeys 4 j ((([1, 2, 3] : List Int).take i).foldl (putKey 4)
          (QtKeyboard.new fun _ => 0))).2.keyboardBufferEnd < 4 :=
  ⟨rfl, by decide, by decide, by simp [KeyCode], 
    keyboard_buffer_fifo 4 (QtKeyboard.new fun _ => 0) [1, 2, 3] rfl (by decide) (by decide)
      (by simp [KeyCode])⟩

/-- Claim C18 fails on the code when the buffer is full.  With
`KEYBOARD_BUFFER_SIZE` = 4 and the keys 1, 2, 3 put into the new buffer, three
keys are waiting; a fourth `putKey` moves the end index onto the begin index:
`isKeyPressed` is false and `getKey` returns -1 at once, so no key is returned
where four should be. -/
theorem putKey_on_full_buffer_loses_keys :
    keysBeforeEmpty 4 4 (([1, 2, 3] : List Int).foldl (putKey 4) (QtKeyboard.new fun _ => 0)) = 3 ∧
    isKeyPressed
      (putKey 4 (([1, 2, 3] : List Int).foldl (putKey 4) (QtKeyboard.new fun _ => 0)) 4) = false ∧
    keysBeforeEmpty 4 4
      (putKey 4 (([1, 2, 3] : List Int).foldl (putKey 4) (QtKeyboard.new fun _ => 0)) 4) = 0 := by
  decide

/-- Claim C18 as amended.  In every buffer state reached from the constructor
by `putKey`, `putKeyIfBufferEmpty` and `getKey` with key codes 0..127, if fewer
than `KEYBOARD_BUFFER_SIZE - 1` keys are waiting, then after `putKey` of a key
code `isKeyPressed` is true and the number of keys that the following calls of
`getKey` return before the first -1 is one more than before (counted with any
number of calls that is at least `KEYBOARD_BUFFER_SIZE`); before the `putKey`
that number is the number of keys waiting. -/
theorem putKey_keeps_queued_keys (size : Nat) (k : QtKeyboard) (aKey : Int) (fuel : Nat)
    (hr : Reachable size k) (ha : KeyCode aKey) (hroom : pending size k + 1 < size)
    (hf : size ≤ fuel) :
    isKeyPressed (putKey size k aKey) = true ∧
    keysBeforeEmpty size fuel (putKey size k aKey) = keysBeforeEmpty size fuel k + 1 ∧
    keysBeforeEmpty size fuel k = pending size k := by
  have hs : 0 < size := by omega
  have hinv := inv_of_reachable size hs k hr
  have hinv' := inv_putKey size k aKey hinv ha
  obtain ⟨-, hp⟩ := putKey_of_room size k aKey hinv.1 hinv.2.1 hroom
  have h1 := keysBeforeEmpty_eq_pending size fuel k hinv (by omega)
  have h2 := keysBeforeEmpty_eq_pending size fuel _ hinv' (by rw [hp]; omega)
  refine ⟨?_, by rw [h1, h2, hp], h1⟩
  have hne : pending size (putKey size k aKey) ≠ 0 := by rw [hp]; omega
  have hbe : (putKey size k aKey).keyboardBufferBegin ≠ (putKey size k aKey).keyboardBufferEnd :=
    fun h => hne ((pending_eq_zero_iff size _ hinv'.1 hinv'.2.1).2 h)
  simp [isKeyPressed, isKeyPressedNoLock, hbe]

theorem putKey_keeps_queued_keys_witness :
    Reachable 4 (putKey 4 (QtKeyboard.new fun _ => 0) 7) ∧ KeyCode 9 ∧
    pending 4 (putKey 4 (QtKeyboard.new fun _ => 0) 7) + 1 < 4 ∧ 4 ≤ 4 ∧
    isKeyPressed (putKey 4 (putKey 4 (QtKeyboard.new fun _ => 0) 7) 9) = true ∧
    keysBeforeEmpty 4 4 (putKey 4 (putKey 4 (QtKeyboard.new fun _ => 0) 7) 9) =
      keysBeforeEmpty 4 4 (putKey 4 (QtKeyboard.new fun _ => 0) 7) + 1 ∧
    keysBeforeEmpty 4 4 (putKey 4 (QtKeyboard.new fun _ => 0) 7) =
      pending 4 (putKey 4 (QtKeyboard.new fun _ => 0) 7) :=
  ⟨Reachable.putKey _ _ (Reachable.new _) (by simp [KeyCode]), by simp [KeyCode], by decide,
    by decide,
    putKey_keeps_queued_keys 4 (putKey 4 (QtKeyboard.new fun _ => 0) 7) 9 4
      (Reachable.putKey _ _ (Reachable.new _) (by simp [KeyCode])) (by simp [KeyCode])
      (by decide) (by decide)⟩

/-- On a full buffer (`KEYBOARD_BUFFER_SIZE - 1` keys waiting) `putKey` leaves
the buffer looking empty. -/
theorem putKey_on_full_buffer (size : Nat) (k : QtKeyboard) (aKey : Int)
    (hb : k.keyboardBufferBegin < size) (he : k.keyboardBufferEnd < size)
    (hfull : pending size k + 1 = size) :
    isKeyPressed (putKey size k aKey) = false := by
  have := (putKey_of_full size k aKey hb he hfull).1
  simp [isKeyPressed, isKeyPressedNoLock, this]

end QtKeyboard

namespace PaperWidget

end PaperWidget

namespace PaperWidget

end PaperWidget

namespace PaperWidget

/-- Claim C7, evaluated on the code.  A widget that was painted once and then
cleared (or resized) is a state the program can be in, with the decoder in the
normal state, the cursor at the origin and `lineCount` = 0, below `MAX_LINES`;
it has no raster, and only `paintEvent` builds one.  The bytes 10 and 4 printed
in that state reach `lineFeed`, which evaluates `pixmap->height()` on the
missing pixmap: no state is returned, where the claim has y increased by
`LINE_HEIGHT`, x set to 0 and `lineCount` increased by 1.  Printing
`[72, 105, 10]` from there returns no state either. -/
theorem line_terminator_without_raster_fails (cfg : Config) (w h : Int)
    (hM : 0 < cfg.MAX_LINES) :
    (∃ s, fresh cfg w h = some s ∧
      Reachable cfg (clear s) ∧ Normal (clear s) ∧
      (clear s).x = 0 ∧ (clear s).y = 0 ∧ (clear s).lineCount < cfg.MAX_LINES ∧
      printChar cfg (clear s) 10 = none ∧ printChar cfg (clear s) 4 = none ∧
      ∀ w1 h1 : Int, Reachable cfg (resizeEvent s w1 h1) ∧ Normal (resizeEvent s w1 h1) ∧
        (resizeEvent s w1 h1).lineCount < cfg.MAX_LINES ∧
        printChar cfg (resizeEvent s w1 h1) 10 = none ∧
        printChar cfg (resizeEvent s w1 h1) 4 = none) ∧
    ∀ charIsSigned : Bool,
      ((fresh (sampleConfig 3 charIsSigned) 186 260).bind fun s =>
        print (sampleConfig 3 charIsSigned) (clear s) [72, 105, 10]) = none := by
  have hfail : ∀ u : PaperWidget, u.lastIsEscape = false → u.expectedGraphicsChars ≤ 0 →
      u.pixmap = none → printChar cfg u 10 = none ∧ printChar cfg u 4 = none := by
    intro u he hg hp
    rw [printChar_terminator cfg u he hg, printChar_lineFeedByte cfg u he hg,
      lineFeed_no_pixmap cfg u hp]
    exact ⟨rfl, rfl⟩
  refine ⟨?_, fun b => by cases b <;> rfl⟩
  obtain ⟨s, hf, he, hg, hl, hx, hy⟩ : ∃ s, fresh cfg w h = some s ∧ s.lastIsEscape = false ∧
      s.expectedGraphicsChars = 0 ∧ s.lineCount = 0 ∧ s.x = 0 ∧ s.y = 0 := by
    obtain ⟨z, o, m, q, hf⟩ := fresh_eq cfg w h
    exact ⟨_, hf, rfl, rfl, rfl, rfl, rfl⟩
  have hr : Reachable cfg s := Reachable.paintEvent _ _ (Reachable.new w h) hf
  have hc : printChar cfg (clear s) 10 = none ∧ printChar cfg (clear s) 4 = none :=
    hfail (clear s) he (le_of_eq hg) rfl
  have hz : ∀ w1 h1 : Int, printChar cfg (resizeEvent s w1 h1) 10 = none ∧
      printChar cfg (resizeEvent s w1 h1) 4 = none :=
    fun w1 h1 => hfail (resizeEvent s w1 h1) he (le_of_eq hg) rfl
  have hlt : s.lineCount < cfg.MAX_LINES := by rw [hl]; exact hM
  exact ⟨s, hf, Reachable.clear s hr, ⟨he, le_of_eq hg⟩, hx, hy, hlt, hc.1, hc.2,
    fun w1 h1 => ⟨Reachable.resizeEvent s w1 h1 hr, ⟨he, le_of_eq hg⟩, hlt, (hz w1 h1).1,
      (hz w1 h1).2⟩⟩

theorem line_terminator_without_raster_fails_witness :
    0 < (sampleConfig 3 false).MAX_LINES ∧
    (∃ s, fresh (sampleConfig 3 false) 186 260 = some s ∧
      Reachable (sampleConfig 3 false) (clear s) ∧ Normal (clear s) ∧
      (clear s).x = 0 ∧ (clear s).y = 0 ∧
      (clear s).lineCount < (sampleConfig 3 false).MAX_LINES ∧
      printChar (sampleConfig 3 false) (clear s) 10 = none ∧
      printChar (sampleConfig 3 false) (clear s) 4 = none ∧
      ∀ w1 h1 : Int, Reachable (sampleConfig 3 false) (resizeEvent s w1 h1) ∧
        Normal (resizeEvent s w1 h1) ∧
        (resizeEvent s w1 h1).lineCount < (sampleConfig 3 false).MAX_LINES ∧
        printChar (sampleConfig 3 false) (resizeEvent s w1 h1) 10 = none ∧
        printChar (sampleConfig 3 false) (resizeEvent s w1 h1) 4 = none) ∧
    ∀ charIsSigned : Bool,
      ((fresh (sampleConfig 3 charIsSigned) 186 260).bind fun s =>
        print (sampleConfig 3 charIsSigned) (clear s) [72, 105, 10]) = none :=
  ⟨by decide, line_terminator_without_raster_fails (sampleConfig 3 false) 186 260 (by decide)⟩

/-- Claim C12, evaluated on the code.  The widget just constructed is a state
the program can be in, with the decoder in the normal state and no raster.
The decoder step is not defined there for the bytes 10 and 4, which reach
`lineFeed` and its `pixmap->height()` on the missing pixmap; nor, with the
sample font, for the byte 65, whose glyph has a set bit that `drawPoint` hands
to the missing painter; nor, in the state expecting one graphics byte that
`[27, 1]` leaves, for the column byte 1. -/
theorem decoder_step_undefined_without_raster (cfg : Config) (w h : Int) :
    Reachable cfg (new cfg w h) ∧ Normal (new cfg w h) ∧
    printChar cfg (new cfg w h) 10 = none ∧ printChar cfg (new cfg w h) 4 = none ∧
    ∀ charIsSigned : Bool,
      printChar (sampleConfig 3 charIsSigned) (new (sampleConfig 3 charIsSigned) 186 260) 65
        = none ∧
      ∃ u, print (sampleConfig 3 charIsSigned) (new (sampleConfig 3 charIsSigned) 186 260)
          [27, 1] = some u ∧
        Reachable (sampleConfig 3 charIsSigned) u ∧ u.expectedGraphicsChars = 1 ∧
        printChar (sampleConfig 3 charIsSigned) u 1 = none := by
  refine ⟨Reachable.new w h, ⟨rfl, le_refl _⟩, ?_, ?_, fun b => ?_⟩
  · rw [printChar_terminator cfg _ rfl (le_refl _), lineFeed_no_pixmap cfg _ rfl]
    rfl
  · rw [printChar_lineFeedByte cfg _ rfl (le_refl _), lineFeed_no_pixmap cfg _ rfl]
    rfl
  · cases b
    · exact ⟨rfl, _, rfl, Reachable.print _ _ [27, 1] (Reachable.new 186 260) rfl, rfl, rfl⟩
    · exact ⟨rfl, _, rfl, Reachable.print _ _ [27, 1] (Reachable.new 186 260) rfl, rfl, rfl⟩

end PaperWidget

end Printer
